import Mathlib

/-!
Verification of the TDL2048-Demo sources (`2048.cpp` and the related demo
variants).  The 64-bit bitboard, the row move tables, the n-tuple pattern
features, the TD(0) training loop and the weight-file loader are embedded
below as executable Lean definitions translated from the C++ sources; the
theorems at the end of the file settle the specification claims against them.

Modelling conventions:
* `uint64_t` board values are `Nat` with explicit `&&& 0xFFFFFFFFFFFFFFFF`
  masking where the C++ code relies on 64-bit wrap-around;
* `float` weights, estimates and learning rates are modelled as `ℚ`
  (the claims under study are about which scalars flow where, not about
  rounding); `-std::numeric_limits<float>::max()` becomes the exact
  rational value `negFloatMax` of that float;
* `std::exit(1)` on a failed load becomes `Except.error`.
-/

/-! ### Board: 64-bit bitboard (class `board` in 2048.cpp) -/

/-- All 16 cells of a 64-bit board, used where the C++ relies on
`uint64_t` arithmetic wrapping modulo `2 ^ 64`. -/
def mask64 : Nat := 0xFFFFFFFFFFFFFFFF

/-- `board`: a 4x4 grid packed in a 64-bit raw value, 4 bits per cell
(cell `i` at bits `4*i .. 4*i+3`, row `i` at bits `16*i .. 16*i+15`). -/
structure Board where
  raw : Nat
deriving DecidableEq, Repr

/-- `board::fetch(i)`: get a 16-bit row. -/
def Board.fetch (b : Board) (i : Nat) : Nat := (b.raw >>> (i <<< 4)) &&& 0xffff

/-- `board::at(i)`: get a 4-bit tile. -/
def Board.at (b : Board) (i : Nat) : Nat := (b.raw >>> (i <<< 2)) &&& 0x0f

/-- `board::lookup::mvleft(row[])`: one-pass greedy left compaction of a
4-cell row (cell ranks), returning the compacted row and the merge score.
The C++ mutates `row[]` in place with a write index `top` and a pending
tile `tmp`; that state machine is reproduced by a fold, with the final
padding standing for the array cells that remain zero. -/
def mvleft (row : List Nat) : List Nat × Nat :=
  let step := fun (st : List Nat × Nat × Nat) (tile : Nat) =>
    let (out, tmp, score) := st
    if tile = 0 then st
    else if tmp ≠ 0 then
      if tile = tmp then (out ++ [tile + 1], 0, score + (1 <<< (tile + 1)))
      else (out ++ [tmp], tile, score)
    else (out, tile, score)
  let (out, tmp, score) := row.foldl step ([], 0, 0)
  let out := if tmp ≠ 0 then out ++ [tmp] else out
  (out ++ List.replicate (4 - out.length) 0, score)

/-- The nibble decomposition `V[4]` of a 16-bit row in `lookup::init`. -/
def rowNibs (r : Nat) : List Nat :=
  [(r >>> 0) &&& 0x0f, (r >>> 4) &&& 0x0f, (r >>> 8) &&& 0x0f, (r >>> 12) &&& 0x0f]

/-- Row re-packing `(L[0] << 0) | (L[1] << 4) | (L[2] << 8) | (L[3] << 12)`
in `lookup::init`. -/
def packRow (l : List Nat) : Nat :=
  (l.getD 0 0 <<< 0) ||| (l.getD 1 0 <<< 4) ||| (l.getD 2 0 <<< 8) ||| (l.getD 3 0 <<< 12)

/-- `lookup::find(r).left`: the left-compacted row of `lookup::init`. -/
def lookupLeft (r : Nat) : Nat := packRow (mvleft (rowNibs r)).1

/-- `lookup::find(r).right`: `init` mirrors the row into `R`, left-compacts
it, reverses it back and packs it. -/
def lookupRight (r : Nat) : Nat := packRow (mvleft (rowNibs r).reverse).1.reverse

/-- `lookup::find(r).score`: `init` assigns `score = mvleft(L)` and then
overwrites it with `score = mvleft(R)`, so the stored score — used by both
`move_left` and `move_right` — is the one computed on the mirrored row. -/
def lookupScore (r : Nat) : Nat := (mvleft (rowNibs r).reverse).2

/-- `board::transpose()`: swap rows and columns (two masked shuffle steps). -/
def transposeRaw (b : Nat) : Nat :=
  let r1 := (b &&& 0xf0f00f0ff0f00f0f) ||| ((b &&& 0x0000f0f00000f0f0) <<< 12) |||
    ((b &&& 0x0f0f00000f0f0000) >>> 12)
  (r1 &&& 0xff00ff0000ff00ff) ||| ((r1 &&& 0x00000000ff00ff00) <<< 24) |||
    ((r1 &&& 0x00ff00ff00000000) >>> 24)

/-- `board::mirror()`: horizontal reflection (reverse each row). -/
def mirrorRaw (b : Nat) : Nat :=
  ((b &&& 0x000f000f000f000f) <<< 12) ||| ((b &&& 0x00f000f000f000f0) <<< 4) |||
    ((b &&& 0x0f000f000f000f00) >>> 4) ||| ((b &&& 0xf000f000f000f000) >>> 12)

/-- `board::flip()`: vertical reflection (reverse the row order). -/
def flipRaw (b : Nat) : Nat :=
  ((b &&& 0x000000000000ffff) <<< 48) ||| ((b &&& 0x00000000ffff0000) <<< 16) |||
    ((b &&& 0x0000ffff00000000) >>> 16) ||| ((b &&& 0xffff000000000000) >>> 48)

/-- `board::rotate_right()`: `transpose(); mirror();` (clockwise). -/
def rotateRightRaw (b : Nat) : Nat := mirrorRaw (transposeRaw b)

/-- `board::rotate_left()`: `transpose(); flip();` (counterclockwise). -/
def rotateLeftRaw (b : Nat) : Nat := flipRaw (transposeRaw b)

/-- `board::reverse()`: `mirror(); flip();`. -/
def reverseRaw (b : Nat) : Nat := flipRaw (mirrorRaw b)

/-- `board::rotate(r)`: rotate clockwise `r` times. -/
def rotateRaw (r : Nat) (b : Nat) : Nat :=
  match ((r % 4) + 4) % 4 with
  | 1 => rotateRightRaw b
  | 2 => reverseRaw b
  | 3 => rotateLeftRaw b
  | _ => b

def Board.transpose (b : Board) : Board := ⟨transposeRaw b.raw⟩

def Board.mirror (b : Board) : Board := ⟨mirrorRaw b.raw⟩

def Board.flip (b : Board) : Board := ⟨flipRaw b.raw⟩

def Board.rotateRight (b : Board) : Board := ⟨rotateRightRaw b.raw⟩

def Board.rotateLeft (b : Board) : Board := ⟨rotateLeftRaw b.raw⟩

def Board.rotate (b : Board) (r : Nat) : Board := ⟨rotateRaw r b.raw⟩

/-- `board::move_left()`: build the moved board by OR-ing each row's
precomputed left image into place (`move |= uint64_t(left) << (i << 4)`,
wrapping mod `2^64`), accumulate the rows' stored scores, and return the
score — or `-1` when the board is unchanged. -/
def Board.moveLeft (b : Board) : Board × ℤ :=
  let m := ((lookupLeft (b.fetch 0) <<< 0) ||| (lookupLeft (b.fetch 1) <<< 16) |||
    (lookupLeft (b.fetch 2) <<< 32) ||| (lookupLeft (b.fetch 3) <<< 48)) &&& mask64
  let sc := lookupScore (b.fetch 0) + lookupScore (b.fetch 1) +
    lookupScore (b.fetch 2) + lookupScore (b.fetch 3)
  (⟨m⟩, if m ≠ b.raw then (sc : ℤ) else -1)

/-- `board::move_right()`. -/
def Board.moveRight (b : Board) : Board × ℤ :=
  let m := ((lookupRight (b.fetch 0) <<< 0) ||| (lookupRight (b.fetch 1) <<< 16) |||
    (lookupRight (b.fetch 2) <<< 32) ||| (lookupRight (b.fetch 3) <<< 48)) &&& mask64
  let sc := lookupScore (b.fetch 0) + lookupScore (b.fetch 1) +
    lookupScore (b.fetch 2) + lookupScore (b.fetch 3)
  (⟨m⟩, if m ≠ b.raw then (sc : ℤ) else -1)

/-- `board::move_up()`: `rotate_right(); score = move_right(); rotate_left();`. -/
def Board.moveUp (b : Board) : Board × ℤ :=
  let p := (b.rotateRight).moveRight
  (p.1.rotateLeft, p.2)

/-- `board::move_down()`: `rotate_right(); score = move_left(); rotate_left();`. -/
def Board.moveDown (b : Board) : Board × ℤ :=
  let p := (b.rotateRight).moveLeft
  (p.1.rotateLeft, p.2)

/-- `board::move(opcode)`: 0 up, 1 right, 2 down, 3 left; anything else is
illegal (`-1`) and leaves the board untouched. -/
def Board.move (b : Board) (opcode : ℤ) : Board × ℤ :=
  if opcode = 0 then b.moveUp
  else if opcode = 1 then b.moveRight
  else if opcode = 2 then b.moveDown
  else if opcode = 3 then b.moveLeft
  else (b, -1)

/-! ### Bit-permutation bookkeeping for the symmetry transforms

Each transform permutes the 64 board bits; `…permBit j` is the source bit
read into bit `j` of the transformed value (cell `j / 4` at row `j / 16`,
column `j % 16 / 4`). -/

def tpermBit (j : Nat) : Nat := 4 * (4 * ((j % 16) / 4) + j / 16) + j % 4

def mpermBit (j : Nat) : Nat := 16 * (j / 16) + 4 * (3 - (j % 16) / 4) + j % 4

def fpermBit (j : Nat) : Nat := 16 * (3 - j / 16) + 4 * ((j % 16) / 4) + j % 4

/-! ### Pattern features (class `feature` / `pattern` in 2048.cpp)

`float` weights are modelled as `ℚ`; the weight table of `2^(4N)` cells is
a function from indices. -/

/-- The accumulation loop of `pattern::indexof`:
`index |= b.at(patt[i]) << (4 * i)`. -/
def indexofAux (b : Board) : List Nat → Nat → Nat
  | [], _ => 0
  | t :: rest, i => (b.at t <<< (4 * i)) ||| indexofAux b rest (i + 1)

/-- `pattern::indexof(patt, b)`. -/
def indexof (patt : List Nat) (b : Board) : Nat := indexofAux b patt 0

/-- A pattern feature: the 8 isomorphic cell-position tuples (`isom`), the
active symmetry count (`isom_last`), and the weight table. -/
structure Pattern where
  isom : List (List Nat)
  isomLast : Nat
  table : Nat → ℚ

/-- The isomorphisms actually used: `for (int i = 0; i < isom_last; i++)`. -/
def Pattern.active (p : Pattern) : List (List Nat) := p.isom.take p.isomLast

/-- `pattern::estimate`: sum of the table entries indexed by each active
isomorphism. -/
def Pattern.estimate (p : Pattern) (b : Board) : ℚ :=
  (p.active.map (fun patt => p.table (indexof patt b))).sum

/-- `pattern::update`: `adjust = u / isom_last`, then for each active
isomorphism in order `operator[](index) += adjust; value += operator[](index)`
(the entry is read back right after its own increment). -/
def Pattern.update (p : Pattern) (b : Board) (u : ℚ) : Pattern × ℚ :=
  let adjust := u / (p.isomLast : ℚ)
  let r := p.active.foldl (fun (st : (Nat → ℚ) × ℚ) patt =>
    let idx := indexof patt b
    let t := fun j => if j = idx then st.1 j + adjust else st.1 j
    (t, st.2 + t idx)) (p.table, 0)
  ({ p with table := r.1 }, r.2)

/-- The identity-labelled board `0xfedcba9876543210` of the `pattern`
constructor (cell `i` holds value `i`). -/
def isoBase : Board := ⟨0xfedcba9876543210⟩

/-- The 8 isomorphic position tuples computed by the `pattern` constructor:
`if (i >= 4) idx.mirror(); idx.rotate(i); isom[i][n] = idx.at(patt[n])`. -/
def patternIsoms (p : List Nat) : List (List Nat) :=
  (List.range 8).map (fun i =>
    let idx := if 4 ≤ i then (isoBase.mirror).rotate i else isoBase.rotate i
    p.map (fun t => idx.at t))

/-- `pattern::pattern(p, iso)`: isomorphisms from the label board, active
count `iso`, zero-initialized weight table of `1 << (p.size() * 4)` cells. -/
def mkPattern (p : List Nat) (iso : Nat) : Pattern :=
  { isom := patternIsoms p, isomLast := iso, table := fun _ => 0 }

/-! ### The weight network (class `learning`) -/

/-- `learning::estimate`: sum of the registered features' estimates. -/
def learningEstimate (feats : List Pattern) (b : Board) : ℚ :=
  (feats.map (fun f => f.estimate b)).sum

/-- `learning::update`: `adjust = u / feats.size()`, then
`value += feat->update(b, adjust)` over the features in registration
order; returns the updated features and the accumulated value. -/
def learningUpdate (feats : List Pattern) (b : Board) (u : ℚ) : List Pattern × ℚ :=
  let adjust := u / (feats.length : ℚ)
  feats.foldl (fun (acc : List Pattern × ℚ) f =>
    let p := f.update b adjust
    (acc.1 ++ [p.1], acc.2 + p.2)) ([], 0)

/-! ### Move records and move selection (class `move`, `learning::select_best_move`) -/

/-- The exact rational value of `-std::numeric_limits<float>::max()`. -/
def negFloatMax : ℚ := -(2 ^ 128 - 2 ^ 104)

/-- A `move` record: state, afterstate, action, reward and estimated value. -/
structure Move where
  before : Board
  after : Board
  opcode : ℤ
  score : ℤ
  esti : ℚ
deriving DecidableEq, Repr

/-- `move::move(board, opcode)` via `move::assign(b)`: afterstate is the
moved board, `score` the move's return, and
`esti = (score != -1) ? score : -FLT_MAX`. -/
def moveAssign (b : Board) (opcode : ℤ) : Move :=
  let p := b.move opcode
  { before := b, after := p.1, opcode := opcode, score := p.2,
    esti := if p.2 ≠ -1 then (p.2 : ℚ) else negFloatMax }

/-- `move::is_valid()`: `after != before && opcode != -1 && score != -1`
(the NaN guard has no counterpart for exact rationals). -/
def Move.isValid (m : Move) : Prop := m.after ≠ m.before ∧ m.opcode ≠ -1 ∧ m.score ≠ -1

instance (m : Move) : Decidable m.isValid := by unfold Move.isValid; infer_instance

/-- `learning::select_best_move(b)`: probe the four directions in order
up, right, down, left; each valid move gets
`value = reward + estimate(afterstate)` and replaces the running best only
when strictly greater; the initial best is the invalid record
`move(b)` (opcode `-1`, value `-FLT_MAX`). -/
def selectBestMove (feats : List Pattern) (b : Board) : Move :=
  let best := moveAssign b (-1)
  let moves := [moveAssign b 0, moveAssign b 1, moveAssign b 2, moveAssign b 3]
  moves.foldl (fun best mv =>
    if mv.isValid then
      let mv' := { mv with esti := (mv.score : ℚ) + learningEstimate feats mv.after }
      if best.esti < mv'.esti then mv' else best
    else best) best

/-- The estimated value the selection loop assigns to direction `d`:
merge score plus the network estimate of the afterstate. -/
def dirVal (feats : List Pattern) (b : Board) (d : ℤ) : ℚ :=
  ((b.move d).2 : ℚ) + learningEstimate feats (b.move d).1

/-! ### The backward TD(0) pass (`learning::learn_from_episode`) -/

/-- The body of the backward loop: with running target `st.2` and current
network `st.1`, `error = target - estimate(move.afterstate())` (a fresh
estimate with the current weights), then
`target = move.reward() + update(move.afterstate(), alpha * error)`. -/
def tdStep (alpha : ℚ) (st : List Pattern × ℚ) (mv : Move) : List Pattern × ℚ :=
  let err := st.2 - learningEstimate st.1 mv.after
  let p := learningUpdate st.1 mv.after (alpha * err)
  (p.1, (mv.score : ℚ) + p.2)

/-- `learning::learn_from_episode(path, alpha)`: pop the terminal record,
then repeatedly process and pop the last remaining record, starting from
`target = 0`. -/
def learnFromEpisode (feats : List Pattern) (path : List Move) (alpha : ℚ) : List Pattern :=
  (path.dropLast.reverse.foldl (tdStep alpha) (feats, 0)).1

/-- The same backward pass written as a recursion over the (terminal-free)
record list, processing the suffix first: the amended reading of the TD
claim, with the error taken against the current estimate of the
afterstate. -/
def tdBackwardRec (alpha : ℚ) (feats : List Pattern) : List Move → List Pattern × ℚ
  | [] => (feats, 0)
  | mv :: rest =>
    let p := tdBackwardRec alpha feats rest
    let err := p.2 - learningEstimate p.1 mv.after
    let q := learningUpdate p.1 mv.after (alpha * err)
    (q.1, (mv.score : ℚ) + q.2)

/-! ### Direct column compaction (spec side of the up/down refinement claim) -/

/-- Modelled from the spec: the left-compaction primitive applied to each
row directly — each row is compacted by the single-pass greedy merge and
contributes its own merge score (`2^rank` per merge); the move is illegal
(`-1`) when the board is unchanged. -/
def moveLeftPrim (b : Board) : Board × ℤ :=
  let m := ((packRow (mvleft (rowNibs (b.fetch 0))).1 <<< 0) |||
    (packRow (mvleft (rowNibs (b.fetch 1))).1 <<< 16) |||
    (packRow (mvleft (rowNibs (b.fetch 2))).1 <<< 32) |||
    (packRow (mvleft (rowNibs (b.fetch 3))).1 <<< 48)) &&& mask64
  let sc := (mvleft (rowNibs (b.fetch 0))).2 + (mvleft (rowNibs (b.fetch 1))).2 +
    (mvleft (rowNibs (b.fetch 2))).2 + (mvleft (rowNibs (b.fetch 3))).2
  (⟨m⟩, if m ≠ b.raw then (sc : ℤ) else -1)

/-- Modelled from the spec: compacting the columns toward the top directly —
transpose the board, apply the left-compaction primitive, transpose back. -/
def moveUpDirect (b : Board) : Board × ℤ :=
  let p := moveLeftPrim b.transpose
  (p.1.transpose, p.2)

/-- Modelled from the spec: compacting the columns toward the bottom
directly — flip, transpose, apply the left-compaction primitive, and
transform back. -/
def moveDownDirect (b : Board) : Board × ℤ :=
  let p := moveLeftPrim (b.flip.transpose)
  (p.1.transpose.flip, p.2)

/-! ### Weight snapshot loading (`learning::load`, `feature::operator>>`)

The binary file is a byte list; a C++ `in.read` that runs past the end of
the file puts the stream in a failed state and the load is, observably,
fatal — modelled as an immediate parse error. A file that could not be
opened is `none`. Decoding 4 bytes into a `float` is abstracted by the
`dec` parameter. -/

/-- A registered feature as the loader sees it: its name (as bytes) and
its weight table. `w.size()` is `weight.length`. -/
structure FeatureData where
  fname : List Nat
  weight : List ℚ
deriving DecidableEq, Repr

/-- Read `n` bytes off the stream, failing when the stream is short. -/
def readBytes (n : Nat) (s : List Nat) : Option (List Nat × List Nat) :=
  if n ≤ s.length then some (s.take n, s.drop n) else none

/-- Little-endian byte-list value (x86 layout of `int` and `size_t`). -/
def leVal (bytes : List Nat) : Nat := bytes.foldr (fun b acc => b + 256 * acc) 0

/-- `feature::operator>>`: read the name length (4 bytes) and name, which
must match; read the table length (8 bytes), which must match `w.size()`;
read `sizeof(float) * size` bytes of weights; any mismatch or short read
is fatal. -/
def featureRead (dec : List Nat → ℚ) (s : List Nat) (w : FeatureData) :
    Except String (FeatureData × List Nat) :=
  match readBytes 4 s with
  | none => .error "unexpected end of binary"
  | some (lenB, s1) =>
    match readBytes (leVal lenB) s1 with
    | none => .error "unexpected end of binary"
    | some (nameB, s2) =>
      if nameB ≠ w.fname then .error "unexpected feature"
      else match readBytes 8 s2 with
        | none => .error "unexpected end of binary"
        | some (sizeB, s3) =>
          if leVal sizeB ≠ w.weight.length then .error "unexpected feature size"
          else match readBytes (4 * w.weight.length) s3 with
            | none => .error "unexpected end of binary"
            | some (wB, s4) =>
              let tbl := (List.range w.weight.length).map (fun i => dec ((wB.drop (4 * i)).take 4))
              .ok ({ w with weight := tbl }, s4)

/-- `learning::load(path)`: an unopenable file (`none`) is not an error and
leaves the registered features untouched; otherwise the stored feature
count must match, and each registered feature is read in registration
order via `featureRead`. -/
def learningLoad (dec : List Nat → ℚ) (file : Option (List Nat)) (feats : List FeatureData) :
    Except String (List FeatureData) :=
  match file with
  | none => .ok feats
  | some s =>
    match readBytes 8 s with
    | none => .error "unexpected feature count"
    | some (szB, s1) =>
      if leVal szB ≠ feats.length then .error "unexpected feature count"
      else
        let r := feats.foldl (fun (acc : Except String (List FeatureData × List Nat)) w =>
          match acc with
          | .error e => .error e
          | .ok (done, st) =>
            match featureRead dec st w with
            | .error e => .error e
            | .ok (w', st') => .ok (done ++ [w'], st')) (.ok ([], s1))
        match r with
        | .error e => .error e
        | .ok (done, _) => .ok done

/-! ## Infrastructure lemmas: bits of the symmetry transforms -/

theorem shiftRightLe (a n : Nat) : a >>> n ≤ a := by
  rw [Nat.shiftRight_eq_div_pow]; exact Nat.div_le_self _ _

theorem maskShift_lt {b m k c : Nat} (h : m * 2 ^ k < c) : (b &&& m) <<< k < c :=
  lt_of_le_of_lt (by rw [Nat.shiftLeft_eq]; exact Nat.mul_le_mul_right _ Nat.and_le_right) h

theorem maskShiftR_lt {b m k c : Nat} (h : m < c) : (b &&& m) >>> k < c :=
  lt_of_le_of_lt (le_trans (shiftRightLe _ _) Nat.and_le_right) h

theorem maskOnly_lt {b m c : Nat} (h : m < c) : b &&& m < c :=
  lt_of_le_of_lt Nat.and_le_right h

theorem mirrorRaw_lt (b : Nat) : mirrorRaw b < 2 ^ 64 := by
  unfold mirrorRaw
  refine Nat.or_lt_two_pow (Nat.or_lt_two_pow (Nat.or_lt_two_pow ?_ ?_) ?_) ?_
  · apply maskShift_lt; norm_num
  · apply maskShift_lt; norm_num
  · apply maskShiftR_lt; norm_num
  · apply maskShiftR_lt; norm_num

theorem transposeRaw_lt (b : Nat) : transposeRaw b < 2 ^ 64 := by
  unfold transposeRaw
  refine Nat.or_lt_two_pow (Nat.or_lt_two_pow ?_ ?_) ?_
  · apply maskOnly_lt; norm_num
  · apply maskShift_lt; norm_num
  · apply maskShiftR_lt; norm_num

theorem flipRaw_lt (b : Nat) : flipRaw b < 2 ^ 64 := by
  unfold flipRaw
  refine Nat.or_lt_two_pow (Nat.or_lt_two_pow (Nat.or_lt_two_pow ?_ ?_) ?_) ?_
  · apply maskShift_lt; norm_num
  · apply maskShift_lt; norm_num
  · apply maskShiftR_lt; norm_num
  · apply maskShiftR_lt; norm_num

theorem masked64_lt (x : Nat) : x &&& mask64 < 2 ^ 64 := by
  apply maskOnly_lt; norm_num [mask64]

theorem raw_ext {x y : Nat} (hx : x < 2 ^ 64) (hy : y < 2 ^ 64)
    (h : ∀ j < 64, x.testBit j = y.testBit j) : x = y := by
  apply Nat.eq_of_testBit_eq
  intro j
  by_cases hj : j < 64
  · exact h j hj
  · have hx' : x < 2 ^ j :=
      lt_of_lt_of_le hx (Nat.pow_le_pow_right (by norm_num) (le_of_not_lt hj))
    have hy' : y < 2 ^ j :=
      lt_of_lt_of_le hy (Nat.pow_le_pow_right (by norm_num) (le_of_not_lt hj))
    rw [Nat.testBit_eq_false_of_lt hx', Nat.testBit_eq_false_of_lt hy']

theorem testBit_transposeRaw (b : Nat) (j : Nat) (hj : j < 64) :
    (transposeRaw b).testBit j = b.testBit (tpermBit j) := by
  interval_cases j <;>
    simp only [transposeRaw, Nat.testBit_shiftLeft, Nat.testBit_and, Nat.testBit_or,
      Nat.testBit_shiftRight] <;>
    norm_num [Nat.testBit_to_div_mod, tpermBit]

theorem testBit_mirrorRaw (b : Nat) (j : Nat) (hj : j < 64) :
    (mirrorRaw b).testBit j = b.testBit (mpermBit j) := by
  interval_cases j <;>
    simp only [mirrorRaw, Nat.testBit_shiftLeft, Nat.testBit_and, Nat.testBit_or,
      Nat.testBit_shiftRight] <;>
    norm_num [Nat.testBit_to_div_mod, mpermBit]

theorem testBit_flipRaw (b : Nat) (j : Nat) (hj : j < 64) :
    (flipRaw b).testBit j = b.testBit (fpermBit j) := by
  interval_cases j <;>
    simp only [flipRaw, Nat.testBit_shiftLeft, Nat.testBit_and, Nat.testBit_or,
      Nat.testBit_shiftRight] <;>
    norm_num [Nat.testBit_to_div_mod, fpermBit]

theorem transpose_transpose (b : Nat) (hb : b < 2 ^ 64) :
    transposeRaw (transposeRaw b) = b := by
  apply raw_ext (transposeRaw_lt _) hb
  intro j hj
  rw [testBit_transposeRaw _ j hj, testBit_transposeRaw]
  · congr 1
    revert hj; revert j; decide
  · revert hj; revert j; decide

theorem flip_flip (b : Nat) (hb : b < 2 ^ 64) : flipRaw (flipRaw b) = b := by
  apply raw_ext (flipRaw_lt _) hb
  intro j hj
  rw [testBit_flipRaw _ j hj, testBit_flipRaw]
  · congr 1
    revert hj; revert j; decide
  · revert hj; revert j; decide

/-- `rotate_left (rotate_right b) = b`. -/
theorem rotL_rotR (b : Nat) (hb : b < 2 ^ 64) :
    rotateLeftRaw (rotateRightRaw b) = b := by
  unfold rotateLeftRaw rotateRightRaw
  apply raw_ext (flipRaw_lt _) hb
  intro j hj
  rw [testBit_flipRaw _ j hj, testBit_transposeRaw, testBit_mirrorRaw, testBit_transposeRaw]
  · congr 1
    revert hj; revert j; decide
  · revert hj; revert j; decide
  · revert hj; revert j; decide
  · revert hj; revert j; decide

/-- `rotate_right (rotate_left b) = b`. -/
theorem rotR_rotL (b : Nat) (hb : b < 2 ^ 64) :
    rotateRightRaw (rotateLeftRaw b) = b := by
  unfold rotateLeftRaw rotateRightRaw
  apply raw_ext (mirrorRaw_lt _) hb
  intro j hj
  rw [testBit_mirrorRaw _ j hj, testBit_transposeRaw, testBit_flipRaw, testBit_transposeRaw]
  · congr 1
    revert hj; revert j; decide
  · revert hj; revert j; decide
  · revert hj; revert j; decide
  · revert hj; revert j; decide

/-- Mirror after transpose is transpose after flip. -/
theorem mirror_transpose (b : Nat) :
    mirrorRaw (transposeRaw b) = transposeRaw (flipRaw b) := by
  apply raw_ext (mirrorRaw_lt _) (transposeRaw_lt _)
  intro j hj
  rw [testBit_mirrorRaw _ j hj, testBit_transposeRaw, testBit_transposeRaw _ j hj,
    testBit_flipRaw]
  · congr 1
    revert hj; revert j; decide
  · revert hj; revert j; decide
  · revert hj; revert j; decide

/-- Flip after transpose after mirror is transpose. -/
theorem flip_transpose_mirror (b : Nat) :
    flipRaw (transposeRaw (mirrorRaw b)) = transposeRaw b := by
  apply raw_ext (flipRaw_lt _) (transposeRaw_lt _)
  intro j hj
  rw [testBit_flipRaw _ j hj, testBit_transposeRaw, testBit_mirrorRaw,
    testBit_transposeRaw _ j hj]
  · congr 1
    revert hj; revert j; decide
  · revert hj; revert j; decide
  · revert hj; revert j; decide

/-! ## Infrastructure lemmas: move legality -/

theorem pairScore_neg_iff (m sc : Nat) (b : Board) :
    ((if m ≠ b.raw then ((sc : Nat) : ℤ) else -1) = -1 ↔ (Board.mk m) = b) := by
  by_cases hm : m = b.raw
  · rw [if_neg (not_not_intro hm)]
    constructor
    · intro _
      rw [hm]
    · intro _
      rfl
  · rw [if_pos hm]
    constructor
    · intro h
      omega
    · intro h
      exact absurd (congrArg Board.raw h) hm

theorem moveLeft_neg_iff (b : Board) : (b.moveLeft).2 = -1 ↔ (b.moveLeft).1 = b :=
  pairScore_neg_iff _ _ _

theorem moveRight_neg_iff (b : Board) : (b.moveRight).2 = -1 ↔ (b.moveRight).1 = b :=
  pairScore_neg_iff _ _ _

theorem moveLeft_raw_lt (b : Board) : (b.moveLeft).1.raw < 2 ^ 64 := masked64_lt _

theorem moveRight_raw_lt (b : Board) : (b.moveRight).1.raw < 2 ^ 64 := masked64_lt _

theorem moveUp_neg_iff (b : Board) (hb : b.raw < 2 ^ 64) :
    (b.moveUp).2 = -1 ↔ (b.moveUp).1 = b := by
  have h1 : (b.moveUp).2 = ((b.rotateRight).moveRight).2 := rfl
  have h2 : (b.moveUp).1 = ((b.rotateRight).moveRight).1.rotateLeft := rfl
  rw [h1, h2, moveRight_neg_iff]
  constructor
  · intro h
    rw [h]
    exact congrArg Board.mk (rotL_rotR _ hb)
  · intro h
    have h' : rotateLeftRaw (((b.rotateRight).moveRight).1.raw) = b.raw := congrArg Board.raw h
    have hm : (((b.rotateRight).moveRight).1).raw = rotateRightRaw b.raw := by
      have h2' := congrArg rotateRightRaw h'
      rwa [rotR_rotL _ (moveRight_raw_lt _)] at h2'
    exact congrArg Board.mk hm

theorem moveDown_neg_iff (b : Board) (hb : b.raw < 2 ^ 64) :
    (b.moveDown).2 = -1 ↔ (b.moveDown).1 = b := by
  have h1 : (b.moveDown).2 = ((b.rotateRight).moveLeft).2 := rfl
  have h2 : (b.moveDown).1 = ((b.rotateRight).moveLeft).1.rotateLeft := rfl
  rw [h1, h2, moveLeft_neg_iff]
  constructor
  · intro h
    rw [h]
    exact congrArg Board.mk (rotL_rotR _ hb)
  · intro h
    have h' : rotateLeftRaw (((b.rotateRight).moveLeft).1.raw) = b.raw := congrArg Board.raw h
    have hm : (((b.rotateRight).moveLeft).1).raw = rotateRightRaw b.raw := by
      have h2' := congrArg rotateRightRaw h'
      rwa [rotR_rotL _ (moveLeft_raw_lt _)] at h2'
    exact congrArg Board.mk hm

/-- For each of the four directions, the returned score is `-1` exactly
when the move leaves the board unchanged. -/
theorem move_neg_iff (b : Board) (hb : b.raw < 2 ^ 64) (d : ℤ)
    (hd : d ∈ ([0, 1, 2, 3] : List ℤ)) :
    ((b.move d).2 = -1 ↔ (b.move d).1 = b) := by
  simp only [List.mem_cons, List.not_mem_nil, or_false] at hd
  rcases hd with rfl | rfl | rfl | rfl
  · simpa [Board.move] using moveUp_neg_iff b hb
  · simpa [Board.move] using moveRight_neg_iff b
  · simpa [Board.move] using moveDown_neg_iff b hb
  · simpa [Board.move] using moveLeft_neg_iff b

/-- A returned score is either the sentinel `-1` or a nonnegative merge
score. -/
theorem move_score_cases (b : Board) (d : ℤ) :
    (b.move d).2 = -1 ∨ 0 ≤ (b.move d).2 := by
  have key : ∀ (m sc : Nat) (c : Board),
      (if m ≠ c.raw then ((sc : Nat) : ℤ) else -1) = -1 ∨
        0 ≤ (if m ≠ c.raw then ((sc : Nat) : ℤ) else -1) := by
    intro m sc c
    by_cases hm : m = c.raw
    · simp [hm]
    · simp [hm]
  simp only [Board.move]
  split_ifs
  · exact key _ _ _
  · exact key _ _ _
  · exact key _ _ _
  · exact key _ _ _
  · left
    rfl

/-! ## Claim theorems -/

/-- C7: left row compaction is the single-pass greedy merge: ranks
`[1,0,1,2]` (tiles `[2,0,2,4]`) compact to `[2,2,0,0]` (tiles `[4,4,0,0]`)
with score 4 — the freshly merged 4 does not merge again with the
pre-existing 4 — and ranks `[1,1,1,1]` (tiles `[2,2,2,2]`) compact to
`[2,2,0,0]` (tiles `[4,4,0,0]`) with score 8. -/
theorem claimC7_row_compaction :
    mvleft [1, 0, 1, 2] = ([2, 2, 0, 0], 4) ∧ mvleft [1, 1, 1, 1] = ([2, 2, 0, 0], 8) := by
  decide

/-- C4 counterexample: on the board whose first row has ranks
`[2,1,1,0]` (tiles `[4,2,2,0]`), the first left move changes the board
(to ranks `[2,2,0,0]`), and the second left move is *not* illegal: it
merges the two newly adjacent 4-tiles and returns score 8, refuting
"whenever the first call changed the board, the second call reports -1". -/
theorem claimC4_counterexample :
    ((Board.mk 0x112).move 3).1 ≠ Board.mk 0x112 ∧
      ((((Board.mk 0x112).move 3).1).move 3).2 ≠ -1 := by
  decide

/-- C4 (amended): applying `move` twice in the same direction without an
intervening random tile: whenever the first call did *not* change the
board (reported `-1`), the second call in the same direction also
reports `-1`. -/
theorem claimC4_second_move (b : Board) (hb : b.raw < 2 ^ 64) (d : ℤ)
    (hd : d ∈ ([0, 1, 2, 3] : List ℤ)) (h1 : (b.move d).2 = -1) :
    (((b.move d).1).move d).2 = -1 := by
  rw [(move_neg_iff b hb d hd).mp h1]
  exact h1

theorem claimC4_witness :
    ((Board.mk 0x1).raw < 2 ^ 64) ∧ ((3 : ℤ) ∈ ([0, 1, 2, 3] : List ℤ)) ∧
      ((Board.mk 0x1).move 3).2 = -1 ∧ ((((Board.mk 0x1).move 3).1).move 3).2 = -1 :=
  ⟨by decide, by decide, by decide,
    claimC4_second_move (Board.mk 0x1) (by decide) 3 (by decide) (by decide)⟩

/-- C5: for every board and direction in `{up, right, down, left}`, `move`
applies the merge-and-compact operation in that direction and returns the
accumulated merge score (a nonnegative value), with the sentinel `-1`
returned exactly when the move leaves the board unchanged. -/
theorem claimC5_illegal_iff_unchanged (b : Board) (hb : b.raw < 2 ^ 64) (d : ℤ)
    (hd : d ∈ ([0, 1, 2, 3] : List ℤ)) :
    ((b.move d).2 = -1 ↔ (b.move d).1 = b) ∧
      ((b.move d).2 = -1 ∨ 0 ≤ (b.move d).2) :=
  ⟨move_neg_iff b hb d hd, move_score_cases b d⟩

theorem claimC5_witness :
    ((Board.mk 0x112).raw < 2 ^ 64) ∧ ((3 : ℤ) ∈ ([0, 1, 2, 3] : List ℤ)) ∧
      ((((Board.mk 0x112).move 3).2 = -1 ↔ ((Board.mk 0x112).move 3).1 = Board.mk 0x112) ∧
        (((Board.mk 0x112).move 3).2 = -1 ∨ 0 ≤ ((Board.mk 0x112).move 3).2)) :=
  ⟨by decide, by decide, claimC5_illegal_iff_unchanged (Board.mk 0x112) (by decide) 3 (by decide)⟩

/-! ## Infrastructure lemmas: network and pattern updates -/

theorem learningUpdate_fold (b : Board) (u : ℚ) (l : List Pattern) :
    ∀ (acc : List Pattern × ℚ),
      l.foldl (fun (acc : List Pattern × ℚ) f =>
        let p := f.update b u
        (acc.1 ++ [p.1], acc.2 + p.2)) acc =
      (acc.1 ++ l.map (fun f => (f.update b u).1),
        acc.2 + (l.map (fun f => (f.update b u).2)).sum) := by
  induction l with
  | nil => intro acc; simp
  | cons f l ih =>
    intro acc
    simp only [List.foldl_cons, List.map_cons, List.sum_cons, ih]
    simp [List.append_assoc, add_assoc]

/-- C1 counterexample: with two one-cell features and delta 2, the network
update returns 2 (each feature receives `2 / 2 = 1`), not the 4 the claim
predicts for passing the undivided scalar 2 to each feature. -/
theorem claimC1_counterexample :
    (learningUpdate [mkPattern [0] 1, mkPattern [0] 1] (Board.mk 0) 2).2 ≠
      (([mkPattern [0] 1, mkPattern [0] 1].map
        (fun f => (f.update (Board.mk 0) 2).2))).sum := by
  have hiso : (mkPattern [0] 1).active = [[0]] := by decide
  have hlast : (mkPattern [0] 1).isomLast = 1 := rfl
  have htab : (mkPattern [0] 1).table = fun _ => (0 : ℚ) := rfl
  have hidx : indexof [0] (Board.mk 0) = 0 := by decide
  simp only [learningUpdate, Pattern.update, hiso, hlast, htab, hidx, List.foldl_cons,
    List.foldl_nil, List.map_cons, List.map_nil, List.sum_cons, List.sum_nil,
    List.length_cons, List.length_nil]
  norm_num

/-- C1 (amended): `learning::update(b, u)` passes `u / feats.size()` — not
the undivided `u` — to each registered feature's `update`, in registration
order, and returns the sum of the features' returned post-update values. -/
theorem claimC1_network_update (feats : List Pattern) (b : Board) (u : ℚ) :
    (learningUpdate feats b u).1 =
      feats.map (fun f => (f.update b (u / (feats.length : ℚ))).1) ∧
    (learningUpdate feats b u).2 =
      (feats.map (fun f => (f.update b (u / (feats.length : ℚ))).2)).sum := by
  unfold learningUpdate
  rw [learningUpdate_fold]
  simp

theorem patternFold_table (b : Board) (adjust : ℚ) :
    ∀ (l : List (List Nat)) (st0 : (Nat → ℚ) × ℚ),
      ((l.foldl (fun (st : (Nat → ℚ) × ℚ) patt =>
        let idx := indexof patt b
        let tt := fun j => if j = idx then st.1 j + adjust else st.1 j
        (tt, st.2 + tt idx)) st0).1) =
      fun j => st0.1 j + ((l.map (fun patt => indexof patt b)).count j) * adjust := by
  intro l
  induction l with
  | nil =>
    intro st0
    funext j
    simp
  | cons patt l ih =>
    intro st0
    rw [List.foldl_cons, ih]
    funext j
    have hfst : ((fun (st : (Nat → ℚ) × ℚ) patt =>
        let idx := indexof patt b
        let tt := fun j => if j = idx then st.1 j + adjust else st.1 j
        (tt, st.2 + tt idx)) st0 patt).1 j =
        if j = indexof patt b then st0.1 j + adjust else st0.1 j := rfl
    rw [hfst]
    by_cases hj : j = indexof patt b
    · subst hj
      simp only [List.map_cons, List.count_cons]
      push_cast
      have heq : (indexof patt b == indexof patt b) = true := by simp
      rw [if_pos heq]
      ring
    · simp only [List.map_cons, List.count_cons]
      push_cast
      have hne : ¬ ((indexof patt b == j) = true) := by simp [Ne.symm hj]
      rw [if_neg hne, if_neg hj]
      ring

theorem patternFold_value (b : Board) (adjust : ℚ) :
    ∀ (l : List (List Nat)) (st0 : (Nat → ℚ) × ℚ),
      (l.map (fun patt => indexof patt b)).Nodup →
      ((l.foldl (fun (st : (Nat → ℚ) × ℚ) patt =>
        let idx := indexof patt b
        let tt := fun j => if j = idx then st.1 j + adjust else st.1 j
        (tt, st.2 + tt idx)) st0).2) =
      st0.2 + (l.map (fun patt => st0.1 (indexof patt b) + adjust)).sum := by
  intro l
  induction l with
  | nil =>
    intro st0 _
    simp
  | cons patt l ih =>
    intro st0 hnd
    simp only [List.map_cons, List.nodup_cons] at hnd
    obtain ⟨hni, hnd⟩ := hnd
    rw [List.foldl_cons, ih _ hnd]
    have hsnd : ((fun (st : (Nat → ℚ) × ℚ) patt =>
        let idx := indexof patt b
        let tt := fun j => if j = idx then st.1 j + adjust else st.1 j
        (tt, st.2 + tt idx)) st0 patt).2 =
        st0.2 + (if indexof patt b = indexof patt b then st0.1 (indexof patt b) + adjust
          else st0.1 (indexof patt b)) := rfl
    have hfst : ∀ q : List Nat, ((fun (st : (Nat → ℚ) × ℚ) patt =>
        let idx := indexof patt b
        let tt := fun j => if j = idx then st.1 j + adjust else st.1 j
        (tt, st.2 + tt idx)) st0 patt).1 (indexof q b) =
        if indexof q b = indexof patt b then st0.1 (indexof q b) + adjust
          else st0.1 (indexof q b) := fun q => rfl
    rw [hsnd, if_pos rfl]
    have hmap : l.map (fun q => ((fun (st : (Nat → ℚ) × ℚ) patt =>
        let idx := indexof patt b
        let tt := fun j => if j = idx then st.1 j + adjust else st.1 j
        (tt, st.2 + tt idx)) st0 patt).1 (indexof q b) + adjust) =
        l.map (fun q => st0.1 (indexof q b) + adjust) := by
      apply List.map_congr_left
      intro q hq
      rw [hfst q]
      have hne : indexof q b ≠ indexof patt b := by
        intro h
        exact hni (h ▸ List.mem_map_of_mem (fun r => indexof r b) hq)
      rw [if_neg hne]
    rw [hmap]
    simp only [List.map_cons, List.sum_cons]
    ring

/-- C2 counterexample: for the one-cell pattern feature `pattern({0})`
(8 active symmetries) on the all-zero board, all 8 symmetries hit table
index 0; the code adds `8 / 8 = 1` per symmetry, leaving entry 8 — not the
`0 + 8 × 8 = 64` predicted by adding the full delta per symmetry. -/
theorem claimC2_counterexample :
    (Pattern.update (mkPattern [0] 8) (Board.mk 0) 8).1.table 0 ≠ 64 := by
  have hiso : (mkPattern [0] 8).active = [[0], [12], [15], [3], [3], [15], [12], [0]] := by
    decide
  have hlast : (mkPattern [0] 8).isomLast = 8 := rfl
  have htab : (mkPattern [0] 8).table = fun _ => (0 : ℚ) := rfl
  have hidx : ∀ x, indexof [x] (Board.mk 0) = 0 := by
    intro x
    simp [indexof, indexofAux, Board.at]
  simp only [Pattern.update, hiso, hlast, htab, List.foldl_cons, List.foldl_nil, hidx]
  norm_num

/-- C2 (amended): `pattern::update(b, u)` adds `u / isom_last` — not the
full `u` — to `table[index_under_symmetry_i(b)]` for each active symmetry
`i`; each symmetry is still updated independently, so a table cell shared
by several symmetries accumulates one `u / isom_last` per symmetry (the
count factor below). The returned value sums each entry as read right
after its own update; when the active indices are pairwise distinct it
equals the estimate of the updated feature. -/
theorem claimC2_pattern_update (p : Pattern) (b : Board) (u : ℚ) :
    ((p.update b u).1.table = fun j =>
        p.table j + ((p.active.map (fun patt => indexof patt b)).count j) *
          (u / (p.isomLast : ℚ))) ∧
    (p.update b u).1.isom = p.isom ∧
    (p.update b u).1.isomLast = p.isomLast ∧
    ((p.active.map (fun patt => indexof patt b)).Nodup →
      (p.update b u).2 = Pattern.estimate (p.update b u).1 b) := by
  have h1 : (p.update b u).1.table = (p.active.foldl (fun (st : (Nat → ℚ) × ℚ) patt =>
      let idx := indexof patt b
      let tt := fun j => if j = idx then st.1 j + (u / (p.isomLast : ℚ)) else st.1 j
      (tt, st.2 + tt idx)) (p.table, 0)).1 := rfl
  have h2 : (p.update b u).2 = (p.active.foldl (fun (st : (Nat → ℚ) × ℚ) patt =>
      let idx := indexof patt b
      let tt := fun j => if j = idx then st.1 j + (u / (p.isomLast : ℚ)) else st.1 j
      (tt, st.2 + tt idx)) (p.table, 0)).2 := rfl
  have htab' : (p.update b u).1.table = fun j =>
      p.table j + ((p.active.map (fun patt => indexof patt b)).count j) *
        (u / (p.isomLast : ℚ)) :=
    h1.trans (patternFold_table b _ p.active (p.table, 0))
  refine ⟨htab', rfl, rfl, ?_⟩
  intro hnd
  rw [h2, patternFold_value b _ p.active (p.table, 0) hnd]
  have hpt : ∀ patt ∈ p.active, (p.update b u).1.table (indexof patt b) =
      p.table (indexof patt b) + u / (p.isomLast : ℚ) := by
    intro patt hpatt
    rw [htab']
    simp only []
    rw [List.count_eq_one_of_mem hnd (List.mem_map_of_mem _ hpatt)]
    push_cast
    ring
  unfold Pattern.estimate
  have hact : (p.update b u).1.active = p.active := rfl
  rw [hact, List.map_congr_left hpt]
  simp only []
  ring

theorem claimC2_witness :
    (((mkPattern [0, 1] 8).active.map (fun patt => indexof patt isoBase)).Nodup) ∧
      (Pattern.update (mkPattern [0, 1] 8) isoBase 8).2 =
        Pattern.estimate (Pattern.update (mkPattern [0, 1] 8) isoBase 8).1 isoBase :=
  ⟨by decide, (claimC2_pattern_update (mkPattern [0, 1] 8) isoBase 8).2.2.2 (by decide)⟩

/-! ## Infrastructure lemmas: index bounds -/

theorem at_lt (b : Board) (i : Nat) : b.at i < 16 := maskOnly_lt (by norm_num)

theorem indexofAux_lt (b : Board) : ∀ (l : List Nat) (i : Nat),
    indexofAux b l i < 2 ^ (4 * i + 4 * l.length) := by
  intro l
  induction l with
  | nil =>
    intro i
    show 0 < _
    positivity
  | cons t rest ih =>
    intro i
    show (b.at t <<< (4 * i)) ||| indexofAux b rest (i + 1) < _
    apply Nat.or_lt_two_pow
    · have hpos : 0 < 2 ^ (4 * i) := Nat.pos_pow_of_pos _ (by norm_num)
      have h1 : b.at t <<< (4 * i) < 2 ^ (4 * i + 4) := by
        rw [Nat.shiftLeft_eq]
        have h2 : b.at t * 2 ^ (4 * i) < 16 * 2 ^ (4 * i) :=
          (Nat.mul_lt_mul_right hpos).mpr (at_lt b t)
        have h3 : 16 * 2 ^ (4 * i) = 2 ^ (4 * i + 4) := by rw [pow_add]; ring
        exact h3 ▸ h2
      apply lt_of_lt_of_le h1
      apply Nat.pow_le_pow_right (by norm_num)
      simp only [List.length_cons]
      omega
    · apply lt_of_lt_of_le (ih (i + 1))
      apply Nat.pow_le_pow_right (by norm_num)
      simp only [List.length_cons]
      omega

theorem indexof_lt (patt : List Nat) (b : Board) :
    indexof patt b < 2 ^ (4 * patt.length) := by
  have h := indexofAux_lt b patt 0
  simpa using h

/-- C10: for any pattern feature built by the constructor from cell
positions `p`, every weight-table index computed by `indexof` during
`estimate` and `update` (that is, for every active isomorphism) is below
the allocated table size `1 << (4 * p.size())`, because every board cell
read by `at()` is a 4-bit value. -/
theorem claimC10_index_bounds (p : List Nat) (iso : Nat) (b : Board) (patt : List Nat)
    (hp : patt ∈ (mkPattern p iso).active) :
    indexof patt b < 1 <<< (4 * p.length) := by
  have hp' : patt ∈ (patternIsoms p).take iso := hp
  have hmem : patt ∈ patternIsoms p := List.mem_of_mem_take hp'
  obtain ⟨i, hi, hpatt⟩ := List.mem_map.mp hmem
  rw [Nat.one_shiftLeft]
  have hlen : patt.length = p.length := by
    rw [← hpatt]
    simp
  rw [← hlen]
  exact indexof_lt patt b

theorem claimC10_witness :
    (([0, 1, 2, 3, 4, 5] : List Nat) ∈ (mkPattern [0, 1, 2, 3, 4, 5] 8).active) ∧
      indexof [0, 1, 2, 3, 4, 5] isoBase < 1 <<< (4 * ([0, 1, 2, 3, 4, 5] : List Nat).length) :=
  ⟨by decide, claimC10_index_bounds [0, 1, 2, 3, 4, 5] 8 isoBase [0, 1, 2, 3, 4, 5] (by decide)⟩

/-! ## The backward TD pass as a recursion -/

theorem learnFromEpisode_rec (feats : List Pattern) (alpha : ℚ) :
    ∀ l : List Move,
      l.reverse.foldl (tdStep alpha) (feats, 0) = tdBackwardRec alpha feats l := by
  intro l
  induction l with
  | nil => rfl
  | cons mv rest ih =>
    rw [List.reverse_cons, List.foldl_append, ih]
    rfl

/-- C3 (amended): the backward TD(0) pass processes the move log from the
terminal record toward the first with `target` initialized to 0; for each
preceding record the error is `target` minus the network's *current*
estimate of the recorded afterstate (recomputed with the weights already
corrected while processing later records — not the estimate captured at
selection time); then `delta = alpha * error` is applied via the network
update, and `target` becomes the recorded reward plus the freshly
corrected estimate returned by that update. `tdBackwardRec` is exactly
that recursion. -/
theorem claimC3_backward_pass (feats : List Pattern) (path : List Move) (alpha : ℚ) :
    learnFromEpisode feats path alpha = (tdBackwardRec alpha feats path.dropLast).1 := by
  unfold learnFromEpisode
  rw [learnFromEpisode_rec]

/-- C3 counterexample: a two-move episode (records captured at selection
time with weights `table[1] = 2`, learning rate `1/2`). Processing the
later record corrects `table[1]` to 1 and sets `target = 1`; for the
earlier record the code computes `error = target - estimate(afterstate)`
with the *current* weights (`1 - 1 = 0`), leaving `table[1] = 1`, whereas
the claim's formula `error = target - (recorded_estimate - recorded_reward)
= 1 - 2 = -1` would yield `table[1] = 1 - 1/2 = 1/2`. -/
theorem claimC3_counterexample :
    ((learnFromEpisode
        [{ isom := [[0]], isomLast := 1, table := fun j => if j = 1 then 2 else 0 }]
        [{ before := Board.mk 0x10, after := Board.mk 0x1, opcode := 3, score := 0, esti := 2 },
          { before := Board.mk 0x100001, after := Board.mk 0x10001, opcode := 3, score := 0,
            esti := 2 },
          moveAssign (Board.mk 0x110011) (-1)]
        (1 / 2)).map (fun f => f.table 1)) ≠ [1 / 2] := by
  have hat1 : (Board.mk 0x1).at 0 = 1 := by decide
  have hat2 : (Board.mk 0x10001).at 0 = 1 := by decide
  simp only [learnFromEpisode, tdStep, learningEstimate, learningUpdate, Pattern.estimate,
    Pattern.update, Pattern.active, indexof, indexofAux, List.dropLast, List.reverse_cons,
    List.reverse_nil, List.nil_append, List.cons_append, List.foldl_cons, List.foldl_nil,
    List.take, List.map_cons, List.map_nil, List.sum_cons, List.sum_nil, List.length_cons,
    List.length_nil, hat1, hat2]
  norm_num

/-! ## Infrastructure lemmas: the best-move selection fold -/

theorem selectFold_char (feats : List Pattern) :
    ∀ (ms : List Move) (best0 : Move),
      (ms.foldl (fun best mv =>
        if mv.isValid then
          let mv' := { mv with esti := (mv.score : ℚ) + learningEstimate feats mv.after }
          if best.esti < mv'.esti then mv' else best
        else best) best0 = best0 ∧
        (∀ mv ∈ ms, mv.isValid →
          (mv.score : ℚ) + learningEstimate feats mv.after ≤ best0.esti)) ∨
      (∃ l1 mv l2, ms = l1 ++ mv :: l2 ∧ mv.isValid ∧
        best0.esti < (mv.score : ℚ) + learningEstimate feats mv.after ∧
        ms.foldl (fun best mv =>
          if mv.isValid then
            let mv' := { mv with esti := (mv.score : ℚ) + learningEstimate feats mv.after }
            if best.esti < mv'.esti then mv' else best
          else best) best0 =
          { mv with esti := (mv.score : ℚ) + learningEstimate feats mv.after } ∧
        (∀ m' ∈ l1, m'.isValid →
          (m'.score : ℚ) + learningEstimate feats m'.after ≤ best0.esti ∨
          (m'.score : ℚ) + learningEstimate feats m'.after <
            (mv.score : ℚ) + learningEstimate feats mv.after) ∧
        (∀ m' ∈ l2, m'.isValid →
          (m'.score : ℚ) + learningEstimate feats m'.after ≤
            (mv.score : ℚ) + learningEstimate feats mv.after)) := by
  intro ms
  induction ms with
  | nil =>
    intro best0
    left
    exact ⟨rfl, by simp⟩
  | cons m ms ih =>
    intro best0
    rw [List.foldl_cons]
    by_cases hv : m.isValid
    · by_cases hcmp :
        best0.esti < (m.score : ℚ) + learningEstimate feats m.after
      · have hstep : (if m.isValid then
              let mv' := { m with esti := (m.score : ℚ) + learningEstimate feats m.after }
              if best0.esti < mv'.esti then mv' else best0
            else best0) =
            { m with esti := (m.score : ℚ) + learningEstimate feats m.after } := by
          rw [if_pos hv]
          exact if_pos hcmp
        rw [hstep]
        rcases ih { m with esti := (m.score : ℚ) + learningEstimate feats m.after } with
          ⟨heq, hall⟩ | ⟨l1, mv, l2, hms, hval, hgt, heq, hbefore, hafter⟩
        · right
          refine ⟨[], m, ms, rfl, hv, hcmp, heq, by simp, ?_⟩
          intro m' hm' hv'
          exact hall m' hm' hv'
        · right
          refine ⟨m :: l1, mv, l2, by rw [hms, List.cons_append], hval, lt_trans hcmp hgt, heq, ?_, hafter⟩
          intro m' hm' hv'
          rcases List.mem_cons.mp hm' with rfl | hm'
          · right
            exact hgt
          · rcases hbefore m' hm' hv' with hle | hlt
            · right
              exact lt_of_le_of_lt hle hgt
            · right
              exact hlt
      · have hstep : (if m.isValid then
              let mv' := { m with esti := (m.score : ℚ) + learningEstimate feats m.after }
              if best0.esti < mv'.esti then mv' else best0
            else best0) = best0 := by
          rw [if_pos hv]
          exact if_neg hcmp
        rw [hstep]
        rcases ih best0 with ⟨heq, hall⟩ | ⟨l1, mv, l2, hms, hval, hgt, heq, hbefore, hafter⟩
        · left
          refine ⟨heq, ?_⟩
          intro m' hm' hv'
          rcases List.mem_cons.mp hm' with rfl | hm'
          · exact le_of_not_lt hcmp
          · exact hall m' hm' hv'
        · right
          refine ⟨m :: l1, mv, l2, by rw [hms, List.cons_append], hval, hgt, heq, ?_, hafter⟩
          intro m' hm' hv'
          rcases List.mem_cons.mp hm' with rfl | hm'
          · left
            exact le_of_not_lt hcmp
          · exact hbefore m' hm' hv'
    · have hstep : (if m.isValid then
            let mv' := { m with esti := (m.score : ℚ) + learningEstimate feats m.after }
            if best0.esti < mv'.esti then mv' else best0
          else best0) = best0 := if_neg hv
      rw [hstep]
      rcases ih best0 with ⟨heq, hall⟩ | ⟨l1, mv, l2, hms, hval, hgt, heq, hbefore, hafter⟩
      · left
        refine ⟨heq, ?_⟩
        intro m' hm' hv'
        rcases List.mem_cons.mp hm' with rfl | hm'
        · exact absurd hv' hv
        · exact hall m' hm' hv'
      · right
        refine ⟨m :: l1, mv, l2, by rw [hms, List.cons_append], hval, hgt, heq, ?_, hafter⟩
        intro m' hm' hv'
        rcases List.mem_cons.mp hm' with rfl | hm'
        · exact absurd hv' hv
        · exact hbefore m' hm' hv'

/-- C8: `select_best_move` probes the four directions in the fixed order
up, right, down, left; every legal direction is valued as merge score plus
the network estimate of its afterstate; the returned record carries the
direction of strictly greatest value (ties resolved to the earliest
direction), together with that direction's afterstate, reward and value;
if no direction is legal the returned record is invalid. Values are exact
rationals here, so the premise `h` states what is automatic for finite
floats: a legal move's value exceeds `-FLT_MAX`. -/
theorem claimC8_select_best_move (feats : List Pattern) (b : Board) (hb : b.raw < 2 ^ 64)
    (h : ∀ d ∈ ([0, 1, 2, 3] : List ℤ), (b.move d).2 ≠ -1 → negFloatMax < dirVal feats b d) :
    ((∀ d ∈ ([0, 1, 2, 3] : List ℤ), (b.move d).2 = -1) →
        ¬ (selectBestMove feats b).isValid) ∧
    ((∃ d0 ∈ ([0, 1, 2, 3] : List ℤ), (b.move d0).2 ≠ -1) →
      ((selectBestMove feats b).isValid ∧
        (selectBestMove feats b).opcode ∈ ([0, 1, 2, 3] : List ℤ) ∧
        (b.move (selectBestMove feats b).opcode).2 ≠ -1 ∧
        (selectBestMove feats b).after = (b.move (selectBestMove feats b).opcode).1 ∧
        (selectBestMove feats b).score = (b.move (selectBestMove feats b).opcode).2 ∧
        (selectBestMove feats b).esti = dirVal feats b (selectBestMove feats b).opcode ∧
        (∀ d ∈ ([0, 1, 2, 3] : List ℤ), (b.move d).2 ≠ -1 →
          dirVal feats b d ≤ dirVal feats b (selectBestMove feats b).opcode) ∧
        (∀ d ∈ ([0, 1, 2, 3] : List ℤ), (b.move d).2 ≠ -1 →
          d < (selectBestMove feats b).opcode →
          dirVal feats b d < dirVal feats b (selectBestMove feats b).opcode))) := by
  have hsel : selectBestMove feats b =
      ([moveAssign b 0, moveAssign b 1, moveAssign b 2, moveAssign b 3]).foldl
        (fun best mv =>
          if mv.isValid then
            let mv' := { mv with esti := (mv.score : ℚ) + learningEstimate feats mv.after }
            if best.esti < mv'.esti then mv' else best
          else best) (moveAssign b (-1)) := rfl
  have hmneg : b.move (-1) = (b, -1) := by norm_num [Board.move]
  have hbe : (moveAssign b (-1)).esti = negFloatMax := by
    simp [moveAssign, hmneg]
  have hbv : ¬ (moveAssign b (-1)).isValid := by
    intro hvv
    exact hvv.1 (by simp [moveAssign, hmneg])
  have hvalid : ∀ d ∈ ([0, 1, 2, 3] : List ℤ),
      ((moveAssign b d).isValid ↔ (b.move d).2 ≠ -1) := by
    intro d hd
    constructor
    · intro hvv
      exact hvv.2.2
    · intro hleg
      refine ⟨?_, ?_, hleg⟩
      · show (b.move d).1 ≠ b
        intro hEq
        exact hleg ((move_neg_iff b hb d hd).mpr hEq)
      · show d ≠ -1
        simp only [List.mem_cons, List.not_mem_nil, or_false] at hd
        rcases hd with rfl | rfl | rfl | rfl <;> norm_num
  rcases selectFold_char feats
      [moveAssign b 0, moveAssign b 1, moveAssign b 2, moveAssign b 3] (moveAssign b (-1)) with
    ⟨heq, hall⟩ | ⟨l1, mv, l2, hms, hval, hgt, heq, hbefore, hafter⟩
  · have hnone : ∀ d ∈ ([0, 1, 2, 3] : List ℤ), (b.move d).2 = -1 := by
      intro d hd
      by_contra hleg
      have hvv := (hvalid d hd).mpr hleg
      have hmem : moveAssign b d ∈
          [moveAssign b 0, moveAssign b 1, moveAssign b 2, moveAssign b 3] := by
        simp only [List.mem_cons, List.not_mem_nil, or_false] at hd
        rcases hd with rfl | rfl | rfl | rfl
        · exact List.mem_cons_self _ _
        · exact List.mem_cons_of_mem _ (List.mem_cons_self _ _)
        · exact List.mem_cons_of_mem _ (List.mem_cons_of_mem _ (List.mem_cons_self _ _))
        · exact List.mem_cons_of_mem _
            (List.mem_cons_of_mem _ (List.mem_cons_of_mem _ (List.mem_cons_self _ _)))
      have hle := hall _ hmem hvv
      rw [hbe] at hle
      exact absurd (h d hd hleg) (not_lt_of_le hle)
    constructor
    · intro _
      rw [hsel, heq]
      exact hbv
    · intro hex
      obtain ⟨d0, hd0, hleg0⟩ := hex
      exact absurd (hnone d0 hd0) hleg0
  · rcases l1 with - | ⟨x0, l1⟩
    · simp only [List.nil_append, List.cons.injEq] at hms
      obtain ⟨h1, h2⟩ := hms
      subst h1
      subst h2
      constructor
      · intro hallIll
        exact absurd (hallIll 0 (by norm_num)) hval.2.2
      · intro _
        have hro : (selectBestMove feats b).opcode = (0 : ℤ) := by rw [hsel, heq]; rfl
        have hra : (selectBestMove feats b).after = (b.move 0).1 := by rw [hsel, heq]; rfl
        have hrs : (selectBestMove feats b).score = (b.move 0).2 := by rw [hsel, heq]; rfl
        have hre : (selectBestMove feats b).esti = dirVal feats b 0 := by rw [hsel, heq]; rfl
        have hrv : (selectBestMove feats b).isValid := by
          rw [hsel, heq]
          exact ⟨hval.1, hval.2.1, hval.2.2⟩
        refine ⟨hrv, ?_, ?_, ?_, ?_, ?_, ?_, ?_⟩
        · rw [hro]
          norm_num
        · rw [hro]
          exact hval.2.2
        · rw [hro, hra]
        · rw [hro, hrs]
        · rw [hro, hre]
        · intro d hd hlegd
          have hvv := (hvalid d hd).mpr hlegd
          rw [hro]
          simp only [List.mem_cons, List.not_mem_nil, or_false] at hd
          rcases hd with rfl | rfl | rfl | rfl
          · exact le_refl _
          · exact hafter (moveAssign b 1) (List.mem_cons_self _ _) hvv
          · exact hafter (moveAssign b 2) (List.mem_cons_of_mem _ (List.mem_cons_self _ _)) hvv
          · exact hafter (moveAssign b 3) (List.mem_cons_of_mem _ (List.mem_cons_of_mem _ (List.mem_cons_self _ _))) hvv
        · intro d hd hlegd hdlt
          have hvv := (hvalid d hd).mpr hlegd
          rw [hro] at hdlt
          rw [hro]
          simp only [List.mem_cons, List.not_mem_nil, or_false] at hd
          rcases hd with rfl | rfl | rfl | rfl
          · exact absurd hdlt (lt_irrefl _)
          · norm_num at hdlt
          · norm_num at hdlt
          · norm_num at hdlt
    · rcases l1 with - | ⟨x1, l1⟩
      · simp only [List.cons_append, List.nil_append, List.cons.injEq] at hms
        obtain ⟨h1, h2, h3⟩ := hms
        subst h1
        subst h2
        subst h3
        constructor
        · intro hallIll
          exact absurd (hallIll 1 (by norm_num)) hval.2.2
        · intro _
          have hro : (selectBestMove feats b).opcode = (1 : ℤ) := by rw [hsel, heq]; rfl
          have hra : (selectBestMove feats b).after = (b.move 1).1 := by rw [hsel, heq]; rfl
          have hrs : (selectBestMove feats b).score = (b.move 1).2 := by rw [hsel, heq]; rfl
          have hre : (selectBestMove feats b).esti = dirVal feats b 1 := by rw [hsel, heq]; rfl
          have hrv : (selectBestMove feats b).isValid := by
            rw [hsel, heq]
            exact ⟨hval.1, hval.2.1, hval.2.2⟩
          refine ⟨hrv, ?_, ?_, ?_, ?_, ?_, ?_, ?_⟩
          · rw [hro]
            norm_num
          · rw [hro]
            exact hval.2.2
          · rw [hro, hra]
          · rw [hro, hrs]
          · rw [hro, hre]
          · intro d hd hlegd
            have hvv := (hvalid d hd).mpr hlegd
            rw [hro]
            simp only [List.mem_cons, List.not_mem_nil, or_false] at hd
            rcases hd with rfl | rfl | rfl | rfl
            · rcases hbefore (moveAssign b 0) (List.mem_cons_self _ _) hvv with hle | hlt
              · rw [hbe] at hle
                exact absurd (h 0 (by norm_num) hlegd) (not_lt_of_le hle)
              · exact le_of_lt hlt
            · exact le_refl _
            · exact hafter (moveAssign b 2) (List.mem_cons_self _ _) hvv
            · exact hafter (moveAssign b 3) (List.mem_cons_of_mem _ (List.mem_cons_self _ _)) hvv
          · intro d hd hlegd hdlt
            have hvv := (hvalid d hd).mpr hlegd
            rw [hro] at hdlt
            rw [hro]
            simp only [List.mem_cons, List.not_mem_nil, or_false] at hd
            rcases hd with rfl | rfl | rfl | rfl
            · rcases hbefore (moveAssign b 0) (List.mem_cons_self _ _) hvv with hle | hlt
              · rw [hbe] at hle
                exact absurd (h 0 (by norm_num) hlegd) (not_lt_of_le hle)
              · exact hlt
            · exact absurd hdlt (lt_irrefl _)
            · norm_num at hdlt
            · norm_num at hdlt
      · rcases l1 with - | ⟨x2, l1⟩
        · simp only [List.cons_append, List.nil_append, List.cons.injEq] at hms
          obtain ⟨h1, h2, h3, h4⟩ := hms
          subst h1
          subst h2
          subst h3
          subst h4
          constructor
          · intro hallIll
            exact absurd (hallIll 2 (by norm_num)) hval.2.2
          · intro _
            have hro : (selectBestMove feats b).opcode = (2 : ℤ) := by rw [hsel, heq]; rfl
            have hra : (selectBestMove feats b).after = (b.move 2).1 := by rw [hsel, heq]; rfl
            have hrs : (selectBestMove feats b).score = (b.move 2).2 := by rw [hsel, heq]; rfl
            have hre : (selectBestMove feats b).esti = dirVal feats b 2 := by rw [hsel, heq]; rfl
            have hrv : (selectBestMove feats b).isValid := by
              rw [hsel, heq]
              exact ⟨hval.1, hval.2.1, hval.2.2⟩
            refine ⟨hrv, ?_, ?_, ?_, ?_, ?_, ?_, ?_⟩
            · rw [hro]
              norm_num
            · rw [hro]
              exact hval.2.2
            · rw [hro, hra]
            · rw [hro, hrs]
            · rw [hro, hre]
            · intro d hd hlegd
              have hvv := (hvalid d hd).mpr hlegd
              rw [hro]
              simp only [List.mem_cons, List.not_mem_nil, or_false] at hd
              rcases hd with rfl | rfl | rfl | rfl
              · rcases hbefore (moveAssign b 0) (List.mem_cons_self _ _) hvv with hle | hlt
                · rw [hbe] at hle
                  exact absurd (h 0 (by norm_num) hlegd) (not_lt_of_le hle)
                · exact le_of_lt hlt
              · rcases hbefore (moveAssign b 1) (List.mem_cons_of_mem _ (List.mem_cons_self _ _)) hvv with hle | hlt
                · rw [hbe] at hle
                  exact absurd (h 1 (by norm_num) hlegd) (not_lt_of_le hle)
                · exact le_of_lt hlt
              · exact le_refl _
              · exact hafter (moveAssign b 3) (List.mem_cons_self _ _) hvv
            · intro d hd hlegd hdlt
              have hvv := (hvalid d hd).mpr hlegd
              rw [hro] at hdlt
              rw [hro]
              simp only [List.mem_cons, List.not_mem_nil, or_false] at hd
              rcases hd with rfl | rfl | rfl | rfl
              · rcases hbefore (moveAssign b 0) (List.mem_cons_self _ _) hvv with hle | hlt
                · rw [hbe] at hle
                  exact absurd (h 0 (by norm_num) hlegd) (not_lt_of_le hle)
                · exact hlt
              · rcases hbefore (moveAssign b 1) (List.mem_cons_of_mem _ (List.mem_cons_self _ _)) hvv with hle | hlt
                · rw [hbe] at hle
                  exact absurd (h 1 (by norm_num) hlegd) (not_lt_of_le hle)
                · exact hlt
              · exact absurd hdlt (lt_irrefl _)
              · norm_num at hdlt
        · rcases l1 with - | ⟨x3, l1⟩
          · simp only [List.cons_append, List.nil_append, List.cons.injEq] at hms
            obtain ⟨h1, h2, h3, h4, h5⟩ := hms
            subst h1
            subst h2
            subst h3
            subst h4
            subst h5
            constructor
            · intro hallIll
              exact absurd (hallIll 3 (by norm_num)) hval.2.2
            · intro _
              have hro : (selectBestMove feats b).opcode = (3 : ℤ) := by rw [hsel, heq]; rfl
              have hra : (selectBestMove feats b).after = (b.move 3).1 := by rw [hsel, heq]; rfl
              have hrs : (selectBestMove feats b).score = (b.move 3).2 := by rw [hsel, heq]; rfl
              have hre : (selectBestMove feats b).esti = dirVal feats b 3 := by rw [hsel, heq]; rfl
              have hrv : (selectBestMove feats b).isValid := by
                rw [hsel, heq]
                exact ⟨hval.1, hval.2.1, hval.2.2⟩
              refine ⟨hrv, ?_, ?_, ?_, ?_, ?_, ?_, ?_⟩
              · rw [hro]
                norm_num
              · rw [hro]
                exact hval.2.2
              · rw [hro, hra]
              · rw [hro, hrs]
              · rw [hro, hre]
              · intro d hd hlegd
                have hvv := (hvalid d hd).mpr hlegd
                rw [hro]
                simp only [List.mem_cons, List.not_mem_nil, or_false] at hd
                rcases hd with rfl | rfl | rfl | rfl
                · rcases hbefore (moveAssign b 0) (List.mem_cons_self _ _) hvv with hle | hlt
                  · rw [hbe] at hle
                    exact absurd (h 0 (by norm_num) hlegd) (not_lt_of_le hle)
                  · exact le_of_lt hlt
                · rcases hbefore (moveAssign b 1) (List.mem_cons_of_mem _ (List.mem_cons_self _ _)) hvv with hle | hlt
                  · rw [hbe] at hle
                    exact absurd (h 1 (by norm_num) hlegd) (not_lt_of_le hle)
                  · exact le_of_lt hlt
                · rcases hbefore (moveAssign b 2) (List.mem_cons_of_mem _ (List.mem_cons_of_mem _ (List.mem_cons_self _ _))) hvv with hle | hlt
                  · rw [hbe] at hle
                    exact absurd (h 2 (by norm_num) hlegd) (not_lt_of_le hle)
                  · exact le_of_lt hlt
                · exact le_refl _
              · intro d hd hlegd hdlt
                have hvv := (hvalid d hd).mpr hlegd
                rw [hro] at hdlt
                rw [hro]
                simp only [List.mem_cons, List.not_mem_nil, or_false] at hd
                rcases hd with rfl | rfl | rfl | rfl
                · rcases hbefore (moveAssign b 0) (List.mem_cons_self _ _) hvv with hle | hlt
                  · rw [hbe] at hle
                    exact absurd (h 0 (by norm_num) hlegd) (not_lt_of_le hle)
                  · exact hlt
                · rcases hbefore (moveAssign b 1) (List.mem_cons_of_mem _ (List.mem_cons_self _ _)) hvv with hle | hlt
                  · rw [hbe] at hle
                    exact absurd (h 1 (by norm_num) hlegd) (not_lt_of_le hle)
                  · exact hlt
                · rcases hbefore (moveAssign b 2) (List.mem_cons_of_mem _ (List.mem_cons_of_mem _ (List.mem_cons_self _ _))) hvv with hle | hlt
                  · rw [hbe] at hle
                    exact absurd (h 2 (by norm_num) hlegd) (not_lt_of_le hle)
                  · exact hlt
                · exact absurd hdlt (lt_irrefl _)
          · simp only [List.cons_append, List.nil_append, List.cons.injEq] at hms
            obtain ⟨-, -, -, -, h5⟩ := hms
            have hlen := congrArg List.length h5
            simp only [List.length_nil, List.length_append, List.length_cons] at hlen
            omega

theorem claimC8_witness :
    ((Board.mk 0x12).raw < 2 ^ 64) ∧
    (∀ d ∈ ([0, 1, 2, 3] : List ℤ), ((Board.mk 0x12).move d).2 ≠ -1 →
      negFloatMax < dirVal [] (Board.mk 0x12) d) ∧
    (((∀ d ∈ ([0, 1, 2, 3] : List ℤ), ((Board.mk 0x12).move d).2 = -1) →
        ¬ (selectBestMove [] (Board.mk 0x12)).isValid) ∧
      ((∃ d0 ∈ ([0, 1, 2, 3] : List ℤ), ((Board.mk 0x12).move d0).2 ≠ -1) →
        ((selectBestMove [] (Board.mk 0x12)).isValid ∧
          (selectBestMove [] (Board.mk 0x12)).opcode ∈ ([0, 1, 2, 3] : List ℤ) ∧
          ((Board.mk 0x12).move (selectBestMove [] (Board.mk 0x12)).opcode).2 ≠ -1 ∧
          (selectBestMove [] (Board.mk 0x12)).after =
            ((Board.mk 0x12).move (selectBestMove [] (Board.mk 0x12)).opcode).1 ∧
          (selectBestMove [] (Board.mk 0x12)).score =
            ((Board.mk 0x12).move (selectBestMove [] (Board.mk 0x12)).opcode).2 ∧
          (selectBestMove [] (Board.mk 0x12)).esti =
            dirVal [] (Board.mk 0x12) (selectBestMove [] (Board.mk 0x12)).opcode ∧
          (∀ d ∈ ([0, 1, 2, 3] : List ℤ), ((Board.mk 0x12).move d).2 ≠ -1 →
            dirVal [] (Board.mk 0x12) d ≤
              dirVal [] (Board.mk 0x12) (selectBestMove [] (Board.mk 0x12)).opcode) ∧
          (∀ d ∈ ([0, 1, 2, 3] : List ℤ), ((Board.mk 0x12).move d).2 ≠ -1 →
            d < (selectBestMove [] (Board.mk 0x12)).opcode →
            dirVal [] (Board.mk 0x12) d <
              dirVal [] (Board.mk 0x12) (selectBestMove [] (Board.mk 0x12)).opcode)))) := by
  have hb : (Board.mk 0x12).raw < 2 ^ 64 := by decide
  have hh : ∀ d ∈ ([0, 1, 2, 3] : List ℤ), ((Board.mk 0x12).move d).2 ≠ -1 →
      negFloatMax < dirVal [] (Board.mk 0x12) d := by
    intro d hd hleg
    have hzero : learningEstimate [] = fun _ => (0 : ℚ) := rfl
    simp only [List.mem_cons, List.not_mem_nil, or_false] at hd
    rcases hd with rfl | rfl | rfl | rfl
    · exact absurd (by decide : ((Board.mk 0x12).move 0).2 = -1) hleg
    · unfold dirVal
      rw [hzero, (by decide : ((Board.mk 0x12).move 1).2 = 0)]
      norm_num [negFloatMax]
    · unfold dirVal
      rw [hzero, (by decide : ((Board.mk 0x12).move 2).2 = 0)]
      norm_num [negFloatMax]
    · exact absurd (by decide : ((Board.mk 0x12).move 3).2 = -1) hleg
  exact ⟨hb, hh, claimC8_select_best_move [] (Board.mk 0x12) hb hh⟩

/-! ## Infrastructure lemmas: weight-file loading -/

theorem featureRead_ok (dec : List Nat → ℚ) (s : List Nat) (w w' : FeatureData) (s' : List Nat)
    (h : featureRead dec s w = .ok (w', s')) :
    w'.fname = w.fname ∧ w'.weight.length = w.weight.length := by
  unfold featureRead at h
  repeat' split at h
  all_goals try simp_all
  obtain ⟨h1, h2⟩ := h
  subst h1
  simp

theorem loadFold_err (dec : List Nat → ℚ) : ∀ (ws : List FeatureData) (e : String),
    ws.foldl (fun (acc : Except String (List FeatureData × List Nat)) w =>
      match acc with
      | .error e => .error e
      | .ok (done, st) =>
        match featureRead dec st w with
        | .error e => .error e
        | .ok (w', st') => .ok (done ++ [w'], st')) (.error e) = .error e := by
  intro ws
  induction ws with
  | nil => intro e; rfl
  | cons w ws ih => intro e; exact ih e

theorem loadFold_ok (dec : List Nat → ℚ) : ∀ (ws : List FeatureData) (done : List FeatureData)
    (st : List Nat) (out : List FeatureData × List Nat),
    ws.foldl (fun (acc : Except String (List FeatureData × List Nat)) w =>
      match acc with
      | .error e => .error e
      | .ok (done, st) =>
        match featureRead dec st w with
        | .error e => .error e
        | .ok (w', st') => .ok (done ++ [w'], st')) (.ok (done, st)) = .ok out →
    ∃ suffix, out.1 = done ++ suffix ∧ suffix.length = ws.length ∧
      ∀ pr ∈ suffix.zip ws, pr.1.fname = pr.2.fname ∧ pr.1.weight.length = pr.2.weight.length := by
  intro ws
  induction ws with
  | nil =>
    intro done st out h
    refine ⟨[], ?_, rfl, by simp⟩
    have : out = (done, st) := by
      cases h
      rfl
    simp [this]
  | cons w ws ih =>
    intro done st out h
    rw [List.foldl_cons] at h
    cases hfr : featureRead dec st w with
    | error e =>
      simp only [hfr] at h
      rw [loadFold_err] at h
      cases h
    | ok pr =>
      obtain ⟨w1, st1⟩ := pr
      simp only [hfr] at h
      obtain ⟨suffix, hout, hlen, hzip⟩ := ih (done ++ [w1]) st1 out h
      refine ⟨w1 :: suffix, ?_, by simp [hlen], ?_⟩
      · rw [hout]
        simp
      · intro q hq
        rcases List.mem_cons.mp (by simpa using hq) with hq1 | hq2
        · have := featureRead_ok dec st w w1 st1 hfr
          rw [hq1]
          exact this
        · exact hzip q hq2

/-- C9: a weight file that could not be opened is not an error — `load`
returns and the network keeps its (zero-initialized) weights; once the file
opens, every mismatch against the registered features is fatal (an
`Except.error` carrying the program's diagnostic, the model of
`std::exit(1)`): a short or mismatched stored feature count, and — feature
by feature in registration order — a short read at any stage, a feature
name that differs from the registered one, and a stored table length that
differs from the registered `w.size()`; a feature failure aborts the whole
load with that feature's error, and a successful load implies the stored
count matched and every feature kept the registered name and table
length. -/
theorem claimC9_load (dec : List Nat → ℚ) (feats : List FeatureData) :
    learningLoad dec none feats = .ok feats ∧
    (∀ s, readBytes 8 s = none →
      learningLoad dec (some s) feats = .error "unexpected feature count") ∧
    (∀ s szB s1, readBytes 8 s = some (szB, s1) → leVal szB ≠ feats.length →
      learningLoad dec (some s) feats = .error "unexpected feature count") ∧
    (∀ st w, readBytes 4 st = none →
      featureRead dec st w = .error "unexpected end of binary") ∧
    (∀ st w lenB s1, readBytes 4 st = some (lenB, s1) →
      readBytes (leVal lenB) s1 = none →
      featureRead dec st w = .error "unexpected end of binary") ∧
    (∀ st w lenB s1 nameB s2, readBytes 4 st = some (lenB, s1) →
      readBytes (leVal lenB) s1 = some (nameB, s2) → nameB ≠ w.fname →
      featureRead dec st w = .error "unexpected feature") ∧
    (∀ st w lenB s1 s2, readBytes 4 st = some (lenB, s1) →
      readBytes (leVal lenB) s1 = some (w.fname, s2) → readBytes 8 s2 = none →
      featureRead dec st w = .error "unexpected end of binary") ∧
    (∀ st w lenB s1 s2 sizeB s3, readBytes 4 st = some (lenB, s1) →
      readBytes (leVal lenB) s1 = some (w.fname, s2) →
      readBytes 8 s2 = some (sizeB, s3) → leVal sizeB ≠ w.weight.length →
      featureRead dec st w = .error "unexpected feature size") ∧
    (∀ st w lenB s1 s2 sizeB s3, readBytes 4 st = some (lenB, s1) →
      readBytes (leVal lenB) s1 = some (w.fname, s2) →
      readBytes 8 s2 = some (sizeB, s3) → leVal sizeB = w.weight.length →
      readBytes (4 * w.weight.length) s3 = none →
      featureRead dec st w = .error "unexpected end of binary") ∧
    (∀ s szB s1 ws1 w ws2 done st e, feats = ws1 ++ w :: ws2 →
      readBytes 8 s = some (szB, s1) → leVal szB = feats.length →
      ws1.foldl (fun (acc : Except String (List FeatureData × List Nat)) w =>
      match acc with
      | .error e => .error e
      | .ok (done, st) =>
        match featureRead dec st w with
        | .error e => .error e
        | .ok (w', st') => .ok (done ++ [w'], st')) (.ok ([], s1)) = .ok (done, st) →
      featureRead dec st w = .error e →
      learningLoad dec (some s) feats = .error e) ∧
    (∀ s feats', learningLoad dec (some s) feats = .ok feats' →
      (∃ szB s1, readBytes 8 s = some (szB, s1) ∧ leVal szB = feats.length) ∧
      feats'.length = feats.length ∧
      (∀ pr ∈ feats'.zip feats, pr.1.fname = pr.2.fname ∧
        pr.1.weight.length = pr.2.weight.length)) := by
  refine ⟨rfl, ?_, ?_, ?_, ?_, ?_, ?_, ?_, ?_, ?_, ?_⟩
  · intro s h
    simp only [learningLoad, h]
  · intro s szB s1 h hne
    simp only [learningLoad, h]
    rw [if_pos hne]
  · intro st w h
    simp only [featureRead, h]
  · intro st w lenB s1 h1 h2
    simp only [featureRead, h1, h2]
  · intro st w lenB s1 nameB s2 h1 h2 hne
    simp only [featureRead, h1, h2]
    rw [if_pos hne]
  · intro st w lenB s1 s2 h1 h2 h3
    simp only [featureRead, h1, h2, h3]
    rw [if_neg (fun hh => hh rfl)]
  · intro st w lenB s1 s2 sizeB s3 h1 h2 h3 hsz
    simp only [featureRead, h1, h2, h3]
    rw [if_neg (fun hh => hh rfl), if_pos hsz]
  · intro st w lenB s1 s2 sizeB s3 h1 h2 h3 hsz h4
    simp only [featureRead, h1, h2, h3, h4]
    rw [if_neg (fun hh => hh rfl), if_neg (not_not_intro hsz)]
  · intro s szB s1 ws1 w ws2 done st e hfe hrb hcnt hfold hfr
    subst hfe
    have hr : (ws1 ++ w :: ws2).foldl (fun (acc : Except String (List FeatureData × List Nat)) w =>
      match acc with
      | .error e => .error e
      | .ok (done, st) =>
        match featureRead dec st w with
        | .error e => .error e
        | .ok (w', st') => .ok (done ++ [w'], st')) (.ok ([], s1)) = .error e := by
      rw [List.foldl_append, hfold, List.foldl_cons]
      simp only [hfr, loadFold_err]
    simp only [learningLoad, hrb]
    rw [if_neg (not_not_intro hcnt), hr]
  · intro s feats' h
    simp only [learningLoad] at h
    split at h
    · cases h
    · rename_i szB s1 heqrb
      split at h
      · cases h
      · rename_i hne
        split at h
        · cases h
        · rename_i done snd heqf
          have hsz : leVal szB = feats.length := not_not.mp hne
          obtain ⟨suffix, hout, hlen, hzip⟩ := loadFold_ok dec feats [] s1 (done, snd) heqf
          have hfeq : feats' = done := by
            cases h
            rfl
          simp only [List.nil_append] at hout
          refine ⟨⟨szB, s1, heqrb, hsz⟩, ?_, ?_⟩
          · rw [hfeq]
            have : done = (done, snd).1 := rfl
            rw [this, hout, hlen]
          · intro pr hpr
            apply hzip
            have : done = (done, snd).1 := rfl
            rw [← hout, ← hfeq]
            exact hpr

theorem claimC9_witness :
    learningLoad (fun _ => (0 : ℚ)) none [{ fname := [97], weight := [0] }] =
      .ok [{ fname := [97], weight := [0] }] ∧
    learningLoad (fun _ => (0 : ℚ)) (some [2, 0, 0, 0, 0, 0, 0, 0])
        [{ fname := [97], weight := [0] }] = .error "unexpected feature count" ∧
    featureRead (fun _ => (0 : ℚ)) [1, 0, 0, 0, 98] { fname := [97], weight := [0] } =
      .error "unexpected feature" ∧
    featureRead (fun _ => (0 : ℚ)) [1, 0, 0, 0, 97, 2, 0, 0, 0, 0, 0, 0, 0]
        { fname := [97], weight := [0] } = .error "unexpected feature size" ∧
    featureRead (fun _ => (0 : ℚ)) [] { fname := [97], weight := [0] } =
      .error "unexpected end of binary" ∧
    learningLoad (fun _ => (0 : ℚ)) (some [1, 0, 0, 0, 0, 0, 0, 0])
        [{ fname := [97], weight := [0] }] = .error "unexpected end of binary" ∧
    (∃ szB s1, readBytes 8
        [1, 0, 0, 0, 0, 0, 0, 0, 1, 0, 0, 0, 97, 1, 0, 0, 0, 0, 0, 0, 0, 0, 0, 0, 0] =
          some (szB, s1) ∧
      leVal szB = [({ fname := [97], weight := [0] } : FeatureData)].length) := by
  obtain ⟨t1, t2, t3, t4, t5, t6, t7, t8, t9, t10, t11⟩ :=
    claimC9_load (fun _ => (0 : ℚ)) [{ fname := [97], weight := [0] }]
  refine ⟨t1, ?_, ?_, ?_, ?_, ?_, ?_⟩
  · exact t3 [2, 0, 0, 0, 0, 0, 0, 0] [2, 0, 0, 0, 0, 0, 0, 0] [] rfl (by decide)
  · exact t6 [1, 0, 0, 0, 98] { fname := [97], weight := [0] } [1, 0, 0, 0] [98] [98] []
      rfl rfl (by decide)
  · exact t8 [1, 0, 0, 0, 97, 2, 0, 0, 0, 0, 0, 0, 0] { fname := [97], weight := [0] }
      [1, 0, 0, 0] [97, 2, 0, 0, 0, 0, 0, 0, 0] [2, 0, 0, 0, 0, 0, 0, 0]
      [2, 0, 0, 0, 0, 0, 0, 0] [] rfl rfl rfl (by decide)
  · exact t4 [] { fname := [97], weight := [0] } rfl
  · exact t10 [1, 0, 0, 0, 0, 0, 0, 0] [1, 0, 0, 0, 0, 0, 0, 0] [] []
      { fname := [97], weight := [0] } [] [] [] "unexpected end of binary" rfl rfl
      (by decide) rfl rfl
  · exact (t11 [1, 0, 0, 0, 0, 0, 0, 0, 1, 0, 0, 0, 97, 1, 0, 0, 0, 0, 0, 0, 0, 0, 0, 0, 0]
      [{ fname := [97], weight := [0] }] (by rfl)).1

/-! ## Infrastructure lemmas: rows, fetch and the up/down reduction -/

theorem mirror_mirror (b : Nat) (hb : b < 2 ^ 64) : mirrorRaw (mirrorRaw b) = b := by
  apply raw_ext (mirrorRaw_lt _) hb
  intro j hj
  rw [testBit_mirrorRaw _ j hj, testBit_mirrorRaw]
  · congr 1
    revert hj; revert j; decide
  · revert hj; revert j; decide

theorem testBit_fetch (x i k : Nat) :
    (Board.fetch ⟨x⟩ i).testBit k = (decide (k < 16) && x.testBit (16 * i + k)) := by
  show (((x >>> (i <<< 4)) &&& 0xffff).testBit k) = _
  rw [Nat.testBit_and, Nat.testBit_shiftRight]
  have h1 : i <<< 4 = 16 * i := by
    rw [Nat.shiftLeft_eq]
    ring
  have h2 : (0xffff : Nat) = 2 ^ 16 - 1 := by norm_num
  rw [h1, h2, Nat.testBit_two_pow_sub_one]
  exact Bool.and_comm _ _

theorem fetch_lt (b : Board) (i : Nat) : b.fetch i < 65536 := maskOnly_lt (by norm_num)

theorem fetch_ext {x y : Nat} (hx : x < 2 ^ 64) (hy : y < 2 ^ 64)
    (h : ∀ i < 4, Board.fetch ⟨x⟩ i = Board.fetch ⟨y⟩ i) : x = y := by
  apply raw_ext hx hy
  intro j hj
  have hi : j / 16 < 4 := by omega
  have hk : j % 16 < 16 := Nat.mod_lt _ (by norm_num)
  have hbit := congrArg (fun r => r.testBit (j % 16)) (h (j / 16) hi)
  simp only [testBit_fetch] at hbit
  rw [show 16 * (j / 16) + j % 16 = j from by omega] at hbit
  simpa [hk] using hbit

theorem nibShift_lt {x s : Nat} (hx : x < 16) (hs : s ≤ 12) : x <<< s < 65536 := by
  rw [Nat.shiftLeft_eq]
  have h1 : x * 2 ^ s ≤ 15 * 2 ^ 12 :=
    Nat.mul_le_mul (by omega) (Nat.pow_le_pow_right (by norm_num) hs)
  exact lt_of_le_of_lt h1 (by norm_num)

theorem packRow4_lt {a b c d : Nat} (ha : a < 16) (hb : b < 16) (hc : c < 16) (hd : d < 16) :
    packRow [a, b, c, d] < 65536 := by
  show (a <<< 0) ||| (b <<< 4) ||| (c <<< 8) ||| (d <<< 12) < 65536
  have h16 : (65536 : Nat) = 2 ^ 16 := by norm_num
  rw [h16]
  refine Nat.or_lt_two_pow (Nat.or_lt_two_pow (Nat.or_lt_two_pow ?_ ?_) ?_) ?_ <;>
    rw [← h16]
  · exact nibShift_lt ha (by norm_num)
  · exact nibShift_lt hb (by norm_num)
  · exact nibShift_lt hc (by norm_num)
  · exact nibShift_lt hd (by norm_num)

theorem rowNibs_shape (r : Nat) : rowNibs r = [(r >>> 0) &&& 0x0f, (r >>> 4) &&& 0x0f,
    (r >>> 8) &&& 0x0f, (r >>> 12) &&& 0x0f] := rfl

theorem nib_lt (x k : Nat) : (x >>> k) &&& 0x0f < 16 := maskOnly_lt (by norm_num)

theorem nibBits_false {a : Nat} (ha : a < 16) : ∀ m, 4 ≤ m → a.testBit m = false := by
  intro m hm
  apply Nat.testBit_eq_false_of_lt
  apply lt_of_lt_of_le ha
  calc (16 : Nat) = 2 ^ 4 := by norm_num
  _ ≤ 2 ^ m := Nat.pow_le_pow_right (by norm_num) hm

theorem rowNibs_packRow {a b c d : Nat} (ha : a < 16) (hb : b < 16) (hc : c < 16)
    (hd : d < 16) : rowNibs (packRow [a, b, c, d]) = [a, b, c, d] := by
  have fa := nibBits_false ha
  have fb := nibBits_false hb
  have fc := nibBits_false hc
  have fd := nibBits_false hd
  have t15 : ∀ k, Nat.testBit 15 k = decide (k < 4) := by
    intro k
    rw [show (15 : Nat) = 2 ^ 4 - 1 from by norm_num, Nat.testBit_two_pow_sub_one]
  have hpack : packRow [a, b, c, d] = (a <<< 0) ||| (b <<< 4) ||| (c <<< 8) ||| (d <<< 12) :=
    rfl
  rw [rowNibs_shape, hpack]
  have e0 : ((((a <<< 0) ||| (b <<< 4) ||| (c <<< 8) ||| (d <<< 12)) >>> 0) &&& 0x0f) = a := by
    apply Nat.eq_of_testBit_eq
    intro k
    by_cases hk : k < 4
    · interval_cases k <;>
        simp [Nat.testBit_or, Nat.testBit_and, Nat.testBit_shiftLeft, Nat.testBit_shiftRight,
          t15, fa, fb, fc, fd]
    · have h4 : 4 ≤ k := by omega
      simp [Nat.testBit_and, Nat.testBit_shiftRight, t15, hk, fa k h4]
  have e1 : ((((a <<< 0) ||| (b <<< 4) ||| (c <<< 8) ||| (d <<< 12)) >>> 4) &&& 0x0f) = b := by
    apply Nat.eq_of_testBit_eq
    intro k
    by_cases hk : k < 4
    · interval_cases k <;>
        simp [Nat.testBit_or, Nat.testBit_and, Nat.testBit_shiftLeft, Nat.testBit_shiftRight,
          t15, fa, fb, fc, fd]
    · have h4 : 4 ≤ k := by omega
      simp [Nat.testBit_and, Nat.testBit_shiftRight, t15, hk, fb k h4]
  have e2 : ((((a <<< 0) ||| (b <<< 4) ||| (c <<< 8) ||| (d <<< 12)) >>> 8) &&& 0x0f) = c := by
    apply Nat.eq_of_testBit_eq
    intro k
    by_cases hk : k < 4
    · interval_cases k <;>
        simp [Nat.testBit_or, Nat.testBit_and, Nat.testBit_shiftLeft, Nat.testBit_shiftRight,
          t15, fa, fb, fc, fd]
    · have h4 : 4 ≤ k := by omega
      simp [Nat.testBit_and, Nat.testBit_shiftRight, t15, hk, fc k h4]
  have e3 : ((((a <<< 0) ||| (b <<< 4) ||| (c <<< 8) ||| (d <<< 12)) >>> 12) &&& 0x0f) = d := by
    apply Nat.eq_of_testBit_eq
    intro k
    by_cases hk : k < 4
    · interval_cases k <;>
        simp [Nat.testBit_or, Nat.testBit_and, Nat.testBit_shiftLeft, Nat.testBit_shiftRight,
          t15, fa, fb, fc, fd]
    · have h4 : 4 ≤ k := by omega
      simp [Nat.testBit_and, Nat.testBit_shiftRight, t15, hk, fd k h4]
  rw [e0, e1, e2, e3]

theorem list_len4 {α : Type} (l : List α) (h : l.length = 4) :
    ∃ a b c d, l = [a, b, c, d] := by
  rcases l with - | ⟨a, - | ⟨b, - | ⟨c, - | ⟨d, - | ⟨e, t⟩⟩⟩⟩⟩ <;> simp_all

theorem rowBits_false {a : Nat} (ha : a < 65536) : ∀ m, 16 ≤ m → a.testBit m = false := by
  intro m hm
  apply Nat.testBit_eq_false_of_lt
  apply lt_of_lt_of_le ha
  calc (65536 : Nat) = 2 ^ 16 := by norm_num
  _ ≤ 2 ^ m := Nat.pow_le_pow_right (by norm_num) hm

theorem testBit_m15 (k : Nat) : Nat.testBit 15 k = decide (k < 4) := by
  rw [show (15 : Nat) = 2 ^ 4 - 1 from by norm_num, Nat.testBit_two_pow_sub_one]

theorem testBit_m65535 (k : Nat) : Nat.testBit 65535 k = decide (k < 16) := by
  rw [show (65535 : Nat) = 2 ^ 16 - 1 from by norm_num, Nat.testBit_two_pow_sub_one]

theorem testBit_mask64 (k : Nat) : Nat.testBit mask64 k = decide (k < 64) := by
  rw [show mask64 = 2 ^ 64 - 1 from by norm_num [mask64], Nat.testBit_two_pow_sub_one]

theorem rowNibs_reverse (r : Nat) : (rowNibs r).reverse =
    [(r >>> 12) &&& 0x0f, (r >>> 8) &&& 0x0f, (r >>> 4) &&& 0x0f, (r >>> 0) &&& 0x0f] := rfl

theorem packRow4 (a b c d : Nat) : packRow [a, b, c, d] =
    (a <<< 0) ||| (b <<< 4) ||| (c <<< 8) ||| (d <<< 12) := rfl

theorem fetch_orRows {x0 x1 x2 x3 : Nat} (h0 : x0 < 65536) (h1 : x1 < 65536)
    (h2 : x2 < 65536) (h3 : x3 < 65536) :
    Board.fetch ⟨((x0 <<< 0) ||| (x1 <<< 16) ||| (x2 <<< 32) ||| (x3 <<< 48)) &&& mask64⟩ 0 = x0 ∧
    Board.fetch ⟨((x0 <<< 0) ||| (x1 <<< 16) ||| (x2 <<< 32) ||| (x3 <<< 48)) &&& mask64⟩ 1 = x1 ∧
    Board.fetch ⟨((x0 <<< 0) ||| (x1 <<< 16) ||| (x2 <<< 32) ||| (x3 <<< 48)) &&& mask64⟩ 2 = x2 ∧
    Board.fetch ⟨((x0 <<< 0) ||| (x1 <<< 16) ||| (x2 <<< 32) ||| (x3 <<< 48)) &&& mask64⟩ 3 = x3 := by
  have f0 := rowBits_false h0
  have f1 := rowBits_false h1
  have f2 := rowBits_false h2
  have f3 := rowBits_false h3
  refine ⟨?_, ?_, ?_, ?_⟩
  · apply Nat.eq_of_testBit_eq
    intro k
    rw [testBit_fetch]
    by_cases hk : k < 16
    · interval_cases k <;>
        (simp only [Nat.testBit_and, Nat.testBit_or, Nat.testBit_shiftLeft, testBit_mask64]
         norm_num [f0, f1, f2, f3])
    · simp [hk, f0 k (by omega)]
  · apply Nat.eq_of_testBit_eq
    intro k
    rw [testBit_fetch]
    by_cases hk : k < 16
    · interval_cases k <;>
        (simp only [Nat.testBit_and, Nat.testBit_or, Nat.testBit_shiftLeft, testBit_mask64]
         norm_num [f0, f1, f2, f3])
    · simp [hk, f1 k (by omega)]
  · apply Nat.eq_of_testBit_eq
    intro k
    rw [testBit_fetch]
    by_cases hk : k < 16
    · interval_cases k <;>
        (simp only [Nat.testBit_and, Nat.testBit_or, Nat.testBit_shiftLeft, testBit_mask64]
         norm_num [f0, f1, f2, f3])
    · simp [hk, f2 k (by omega)]
  · apply Nat.eq_of_testBit_eq
    intro k
    rw [testBit_fetch]
    by_cases hk : k < 16
    · interval_cases k <;>
        (simp only [Nat.testBit_and, Nat.testBit_or, Nat.testBit_shiftLeft, testBit_mask64]
         norm_num [f0, f1, f2, f3])
    · simp [hk, f3 k (by omega)]

theorem fetch_mirror_row (x : Nat) (i : Nat) (hi : i < 4) :
    Board.fetch ⟨mirrorRaw x⟩ i = packRow ((rowNibs (Board.fetch ⟨x⟩ i)).reverse) := by
  apply Nat.eq_of_testBit_eq
  intro k
  rw [testBit_fetch, rowNibs_reverse]
  by_cases hk : k < 16
  · interval_cases i <;> interval_cases k <;>
      (rw [testBit_mirrorRaw _ _ (by norm_num)]
       simp only [packRow4, Board.fetch, Nat.testBit_or, Nat.testBit_and,
         Nat.testBit_shiftLeft, Nat.testBit_shiftRight]
       norm_num [Nat.testBit_to_div_mod, mpermBit, Nat.shiftLeft_eq])
  · have hbits := rowBits_false (packRow4_lt (nib_lt (Board.fetch ⟨x⟩ i) 12)
      (nib_lt (Board.fetch ⟨x⟩ i) 8) (nib_lt (Board.fetch ⟨x⟩ i) 4)
      (nib_lt (Board.fetch ⟨x⟩ i) 0)) k (by omega)
    simp only [Nat.shiftRight_zero] at hbits
    simp [hk, hbits]

set_option maxRecDepth 4096 in
set_option maxHeartbeats 3200000 in
theorem mvleft_rev4 (a b c d : Nat) :
    (mvleft [a, b, c, d]).2 = (mvleft [d, c, b, a]).2 := by
  by_cases ha : a = 0 <;> by_cases hb : b = 0 <;> by_cases hc : c = 0 <;>
    by_cases hd : d = 0 <;> by_cases hba : b = a <;> by_cases hca : c = a <;>
    by_cases hcb : c = b <;> by_cases hda : d = a <;> by_cases hdb : d = b <;>
    by_cases hdc : d = c <;> subst_vars <;> simp [mvleft, Nat.shiftLeft_eq, *] <;>
    (try split_ifs) <;> first | rfl | omega

set_option maxRecDepth 4096 in
set_option maxHeartbeats 3200000 in
theorem mvleft_len4 (a b c d : Nat) : (mvleft [a, b, c, d]).1.length = 4 := by
  by_cases ha : a = 0 <;> by_cases hb : b = 0 <;> by_cases hc : c = 0 <;>
    by_cases hd : d = 0 <;> by_cases hba : b = a <;> by_cases hca : c = a <;>
    by_cases hcb : c = b <;> by_cases hda : d = a <;> by_cases hdb : d = b <;>
    by_cases hdc : d = c <;> subst_vars <;> simp [mvleft, *] <;> (try split_ifs) <;>
    first | rfl | omega | simp

theorem mvleft_rowNibs_len (r : Nat) : (mvleft (rowNibs r)).1.length = 4 :=
  mvleft_len4 _ _ _ _

theorem lookupScore_eq (r : Nat) : lookupScore r = (mvleft (rowNibs r)).2 := by
  show (mvleft (rowNibs r).reverse).2 = (mvleft (rowNibs r)).2
  rw [rowNibs_reverse, rowNibs_shape]
  exact mvleft_rev4 _ _ _ _

theorem rowNibs_pack_rev (r : Nat) :
    rowNibs (packRow ((rowNibs r).reverse)) = (rowNibs r).reverse := by
  rw [rowNibs_reverse]
  exact rowNibs_packRow (nib_lt _ _) (nib_lt _ _) (nib_lt _ _) (nib_lt _ _)

theorem lookupRight_mirror_row (r : Nat) :
    lookupRight (packRow ((rowNibs r).reverse)) = packRow ((mvleft (rowNibs r)).1.reverse) := by
  show packRow (mvleft (rowNibs (packRow ((rowNibs r).reverse))).reverse).1.reverse = _
  rw [rowNibs_pack_rev, List.reverse_reverse]

theorem lookupScore_mirror_row (r : Nat) :
    lookupScore (packRow ((rowNibs r).reverse)) = (mvleft (rowNibs r)).2 := by
  show (mvleft (rowNibs (packRow ((rowNibs r).reverse))).reverse).2 = _
  rw [rowNibs_pack_rev, List.reverse_reverse]

theorem upRow (r : Nat) (hov : ∀ v ∈ (mvleft (rowNibs r)).1, v < 16) :
    packRow (mvleft (rowNibs r)).1 < 65536 ∧
    rowNibs (packRow (mvleft (rowNibs r)).1) = (mvleft (rowNibs r)).1 ∧
    packRow ((mvleft (rowNibs r)).1.reverse) < 65536 := by
  obtain ⟨p, q, u, w, hpq⟩ := list_len4 _ (mvleft_rowNibs_len r)
  have hp : p < 16 := hov p (by rw [hpq]; simp)
  have hq : q < 16 := hov q (by rw [hpq]; simp)
  have hu : u < 16 := hov u (by rw [hpq]; simp)
  have hw : w < 16 := hov w (by rw [hpq]; simp)
  refine ⟨?_, ?_, ?_⟩
  · rw [hpq]
    exact packRow4_lt hp hq hu hw
  · rw [hpq]
    exact rowNibs_packRow hp hq hu hw
  · rw [hpq]
    show packRow [w, u, q, p] < 65536
    exact packRow4_lt hw hu hq hp

/-- C6: on any board, `move_down` computed as rotate-right / `move_left` /
rotate-left agrees (board and score) with compacting the columns directly;
`move_up` computed as rotate-right / `move_right` / rotate-left agrees with
direct column compaction whenever no compacted row overflows its 4-bit
cells (every tile rank of every compacted column stays below 16). The
spec's unconditional claim fails on overflow
(`claimC6_counterexample`). -/
theorem claimC6_rotate_equivalence (b : Board) (hb : b.raw < 2 ^ 64) :
    b.moveDown = moveDownDirect b ∧
    ((∀ i < 4, ∀ v ∈ (mvleft (rowNibs (b.transpose.fetch i))).1, v < 16) →
      b.moveUp = moveUpDirect b) := by
  constructor
  · have hrot : b.rotateRight = b.flip.transpose := congrArg Board.mk (mirror_transpose b.raw)
    show ((b.rotateRight).moveLeft.1.rotateLeft, (b.rotateRight).moveLeft.2) =
      ((moveLeftPrim (b.flip.transpose)).1.transpose.flip, (moveLeftPrim (b.flip.transpose)).2)
    rw [hrot]
    have hm : ((b.flip.transpose).moveLeft).1 = (moveLeftPrim (b.flip.transpose)).1 := rfl
    have hsc : ((b.flip.transpose).moveLeft).2 = (moveLeftPrim (b.flip.transpose)).2 := by
      simp only [Board.moveLeft, moveLeftPrim, lookupLeft, lookupScore_eq]
    have h1 : ((b.flip.transpose).moveLeft).1.rotateLeft =
        (moveLeftPrim (b.flip.transpose)).1.transpose.flip :=
      congrArg Board.rotateLeft hm
    exact congrArg₂ Prod.mk h1 hsc
  · intro hov
    have hxlt : b.transpose.raw < 2 ^ 64 := transposeRaw_lt b.raw
    obtain ⟨hLlt0, hN0, hRlt0⟩ := upRow _ (hov 0 (by norm_num))
    obtain ⟨hLlt1, hN1, hRlt1⟩ := upRow _ (hov 1 (by norm_num))
    obtain ⟨hLlt2, hN2, hRlt2⟩ := upRow _ (hov 2 (by norm_num))
    obtain ⟨hLlt3, hN3, hRlt3⟩ := upRow _ (hov 3 (by norm_num))
    have hy0 : (b.rotateRight).fetch 0 = packRow ((rowNibs (b.transpose.fetch 0)).reverse) :=
      fetch_mirror_row b.transpose.raw 0 (by norm_num)
    have hy1 : (b.rotateRight).fetch 1 = packRow ((rowNibs (b.transpose.fetch 1)).reverse) :=
      fetch_mirror_row b.transpose.raw 1 (by norm_num)
    have hy2 : (b.rotateRight).fetch 2 = packRow ((rowNibs (b.transpose.fetch 2)).reverse) :=
      fetch_mirror_row b.transpose.raw 2 (by norm_num)
    have hy3 : (b.rotateRight).fetch 3 = packRow ((rowNibs (b.transpose.fetch 3)).reverse) :=
      fetch_mirror_row b.transpose.raw 3 (by norm_num)
    have hr0 : lookupRight ((b.rotateRight).fetch 0) =
        packRow ((mvleft (rowNibs (b.transpose.fetch 0))).1.reverse) := by
      rw [hy0]
      exact lookupRight_mirror_row _
    have hr1 : lookupRight ((b.rotateRight).fetch 1) =
        packRow ((mvleft (rowNibs (b.transpose.fetch 1))).1.reverse) := by
      rw [hy1]
      exact lookupRight_mirror_row _
    have hr2 : lookupRight ((b.rotateRight).fetch 2) =
        packRow ((mvleft (rowNibs (b.transpose.fetch 2))).1.reverse) := by
      rw [hy2]
      exact lookupRight_mirror_row _
    have hr3 : lookupRight ((b.rotateRight).fetch 3) =
        packRow ((mvleft (rowNibs (b.transpose.fetch 3))).1.reverse) := by
      rw [hy3]
      exact lookupRight_mirror_row _
    have hs0 : lookupScore ((b.rotateRight).fetch 0) = (mvleft (rowNibs (b.transpose.fetch 0))).2 := by
      rw [hy0]
      exact lookupScore_mirror_row _
    have hs1 : lookupScore ((b.rotateRight).fetch 1) = (mvleft (rowNibs (b.transpose.fetch 1))).2 := by
      rw [hy1]
      exact lookupScore_mirror_row _
    have hs2 : lookupScore ((b.rotateRight).fetch 2) = (mvleft (rowNibs (b.transpose.fetch 2))).2 := by
      rw [hy2]
      exact lookupScore_mirror_row _
    have hs3 : lookupScore ((b.rotateRight).fetch 3) = (mvleft (rowNibs (b.transpose.fetch 3))).2 := by
      rw [hy3]
      exact lookupScore_mirror_row _
    obtain ⟨e0, e1, e2, e3⟩ := fetch_orRows hLlt0 hLlt1 hLlt2 hLlt3
    obtain ⟨g0, g1, g2, g3⟩ := fetch_orRows hRlt0 hRlt1 hRlt2 hRlt3
    have hmm : (((lookupRight ((b.rotateRight).fetch 0) <<< 0) ||| (lookupRight ((b.rotateRight).fetch 1) <<< 16) ||| (lookupRight ((b.rotateRight).fetch 2) <<< 32) ||| (lookupRight ((b.rotateRight).fetch 3) <<< 48)) &&& mask64) = mirrorRaw (((packRow (mvleft (rowNibs (b.transpose.fetch 0))).1 <<< 0) ||| (packRow (mvleft (rowNibs (b.transpose.fetch 1))).1 <<< 16) ||| (packRow (mvleft (rowNibs (b.transpose.fetch 2))).1 <<< 32) ||| (packRow (mvleft (rowNibs (b.transpose.fetch 3))).1 <<< 48)) &&& mask64) := by
      rw [hr0, hr1, hr2, hr3]
      apply fetch_ext (masked64_lt _) (mirrorRaw_lt _)
      intro i hi
      interval_cases i
      · rw [g0, fetch_mirror_row _ 0 (by norm_num), e0, hN0]
      · rw [g1, fetch_mirror_row _ 1 (by norm_num), e1, hN1]
      · rw [g2, fetch_mirror_row _ 2 (by norm_num), e2, hN2]
      · rw [g3, fetch_mirror_row _ 3 (by norm_num), e3, hN3]
    have hscore : (lookupScore ((b.rotateRight).fetch 0) + lookupScore ((b.rotateRight).fetch 1) + lookupScore ((b.rotateRight).fetch 2) + lookupScore ((b.rotateRight).fetch 3)) = ((mvleft (rowNibs (b.transpose.fetch 0))).2 + (mvleft (rowNibs (b.transpose.fetch 1))).2 + (mvleft (rowNibs (b.transpose.fetch 2))).2 + (mvleft (rowNibs (b.transpose.fetch 3))).2) := by
      rw [hs0, hs1, hs2, hs3]
    have hcond : ((((lookupRight ((b.rotateRight).fetch 0) <<< 0) ||| (lookupRight ((b.rotateRight).fetch 1) <<< 16) ||| (lookupRight ((b.rotateRight).fetch 2) <<< 32) ||| (lookupRight ((b.rotateRight).fetch 3) <<< 48)) &&& mask64) ≠ (b.rotateRight).raw) ↔ ((((packRow (mvleft (rowNibs (b.transpose.fetch 0))).1 <<< 0) ||| (packRow (mvleft (rowNibs (b.transpose.fetch 1))).1 <<< 16) ||| (packRow (mvleft (rowNibs (b.transpose.fetch 2))).1 <<< 32) ||| (packRow (mvleft (rowNibs (b.transpose.fetch 3))).1 <<< 48)) &&& mask64) ≠ b.transpose.raw) := by
      constructor
      · intro h heq
        apply h
        rw [hmm, show (b.rotateRight).raw = mirrorRaw b.transpose.raw from rfl, heq]
      · intro h heq
        apply h
        rw [hmm] at heq
        have h3 : mirrorRaw (mirrorRaw (((packRow (mvleft (rowNibs (b.transpose.fetch 0))).1 <<< 0) ||| (packRow (mvleft (rowNibs (b.transpose.fetch 1))).1 <<< 16) ||| (packRow (mvleft (rowNibs (b.transpose.fetch 2))).1 <<< 32) ||| (packRow (mvleft (rowNibs (b.transpose.fetch 3))).1 <<< 48)) &&& mask64)) = mirrorRaw (mirrorRaw b.transpose.raw) :=
          congrArg mirrorRaw heq
        rw [mirror_mirror _ (masked64_lt _), mirror_mirror _ hxlt] at h3
        exact h3
    show ((b.rotateRight).moveRight.1.rotateLeft, (b.rotateRight).moveRight.2) =
      ((moveLeftPrim b.transpose).1.transpose, (moveLeftPrim b.transpose).2)
    have hboard : (b.rotateRight).moveRight.1.rotateLeft = (moveLeftPrim b.transpose).1.transpose := by
      show Board.mk (flipRaw (transposeRaw (((lookupRight ((b.rotateRight).fetch 0) <<< 0) ||| (lookupRight ((b.rotateRight).fetch 1) <<< 16) ||| (lookupRight ((b.rotateRight).fetch 2) <<< 32) ||| (lookupRight ((b.rotateRight).fetch 3) <<< 48)) &&& mask64))) = Board.mk (transposeRaw (((packRow (mvleft (rowNibs (b.transpose.fetch 0))).1 <<< 0) ||| (packRow (mvleft (rowNibs (b.transpose.fetch 1))).1 <<< 16) ||| (packRow (mvleft (rowNibs (b.transpose.fetch 2))).1 <<< 32) ||| (packRow (mvleft (rowNibs (b.transpose.fetch 3))).1 <<< 48)) &&& mask64))
      rw [hmm]
      exact congrArg Board.mk (flip_transpose_mirror _)
    have hsc2 : (b.rotateRight).moveRight.2 = (moveLeftPrim b.transpose).2 := by
      show (if (((lookupRight ((b.rotateRight).fetch 0) <<< 0) ||| (lookupRight ((b.rotateRight).fetch 1) <<< 16) ||| (lookupRight ((b.rotateRight).fetch 2) <<< 32) ||| (lookupRight ((b.rotateRight).fetch 3) <<< 48)) &&& mask64) ≠ (b.rotateRight).raw then (((lookupScore ((b.rotateRight).fetch 0) + lookupScore ((b.rotateRight).fetch 1) + lookupScore ((b.rotateRight).fetch 2) + lookupScore ((b.rotateRight).fetch 3)) : Nat) : ℤ) else -1) =
        (if (((packRow (mvleft (rowNibs (b.transpose.fetch 0))).1 <<< 0) ||| (packRow (mvleft (rowNibs (b.transpose.fetch 1))).1 <<< 16) ||| (packRow (mvleft (rowNibs (b.transpose.fetch 2))).1 <<< 32) ||| (packRow (mvleft (rowNibs (b.transpose.fetch 3))).1 <<< 48)) &&& mask64) ≠ b.transpose.raw then ((((mvleft (rowNibs (b.transpose.fetch 0))).2 + (mvleft (rowNibs (b.transpose.fetch 1))).2 + (mvleft (rowNibs (b.transpose.fetch 2))).2 + (mvleft (rowNibs (b.transpose.fetch 3))).2) : Nat) : ℤ) else -1)
      by_cases hcc : (((packRow (mvleft (rowNibs (b.transpose.fetch 0))).1 <<< 0) ||| (packRow (mvleft (rowNibs (b.transpose.fetch 1))).1 <<< 16) ||| (packRow (mvleft (rowNibs (b.transpose.fetch 2))).1 <<< 32) ||| (packRow (mvleft (rowNibs (b.transpose.fetch 3))).1 <<< 48)) &&& mask64) ≠ b.transpose.raw
      · rw [if_pos hcc, if_pos (hcond.mpr hcc), hscore]
      · rw [if_neg hcc, if_neg (fun hc2 => hcc (hcond.mp hc2))]
    exact congrArg₂ Prod.mk hboard hsc2

/-- C6 counterexample: on the board holding two rank-15 tiles in one column
(raw `0xF000F`), the rank-16 merge result overflows its 4-bit cell, and
`move_up` (rotate-right / `move_right` / rotate-left) does not equal direct
column compaction. -/
theorem claimC6_counterexample :
    Board.moveUp ⟨0xF000F⟩ ≠ moveUpDirect ⟨0xF000F⟩ := by
  decide

theorem claimC6_witness :
    Board.moveDown ⟨0x4312752186532731⟩ = moveDownDirect ⟨0x4312752186532731⟩ ∧
    Board.moveUp ⟨0x4312752186532731⟩ = moveUpDirect ⟨0x4312752186532731⟩ :=
  ⟨(claimC6_rotate_equivalence ⟨0x4312752186532731⟩ (by norm_num)).1,
   (claimC6_rotate_equivalence ⟨0x4312752186532731⟩ (by norm_num)).2 (by decide)⟩
